import Mathlib

/-!
# grpc_zap server interceptors

A shallow embedding of `logging/zap/server_interceptors.go` together with the
library functions it calls (`path.Dir`, `path.Base`, `time.Time.Sub`, the
`zap` logger operations `With`, `Check`, `Write`) and theorems about the
interceptors' observable behaviour.

Conventions.
* A Go `string` is a sequence of bytes: `GoString = List Nat`.
* A Go function that can stop abnormally returns `Except Fault _`:
  a run-time panic, a process exit, or exhaustion of the loop fuel of the model.
* Stateful code passes a `World` explicitly.
-/

namespace GrpcZap

/-- A Go string: its bytes in order. -/
abbrev GoString := List Nat

/-- Bytes of an ASCII literal. -/
def ascii (s : String) : GoString := s.toList.map Char.toNat

/-- Ways in which a Go call does not return normally. -/
inductive Fault where
  | indexOutOfRange
  | sliceOutOfRange
  | zapPanic (msg : GoString)
  | zapFatal
  | outOfFuel
  deriving DecidableEq, Repr

/-- Go `s[i]` on a string: the byte at `i`, a run-time panic when `i` is out of range. -/
def byteAt (s : GoString) (i : Nat) : Except Fault Nat :=
  match s[i]? with
  | some c => .ok c
  | none => .error .indexOutOfRange

/-- Go `s[:hi]`. -/
def sliceTo (s : GoString) (hi : Nat) : Except Fault GoString :=
  if hi ≤ s.length then .ok (s.take hi) else .error .sliceOutOfRange

/-- Go `s[lo:]`. -/
def sliceFrom (s : GoString) (lo : Nat) : Except Fault GoString :=
  if lo ≤ s.length then .ok (s.drop lo) else .error .sliceOutOfRange

/-- A Go `for` loop. `body` runs one iteration from the loop variables: the condition
and, if it holds, the loop body. It yields `.inl` of the new variables to iterate
again, or `.inr` of the result when the condition fails. The first argument bounds the
number of iterations; reaching it is reported as `Fault.outOfFuel`. -/
def forLoop {σ ρ : Type} (body : σ → Except Fault (σ ⊕ ρ)) : Nat → σ → Except Fault ρ
  | 0, s =>
    match body s with
    | .error f => .error f
    | .ok (.inr r) => .ok r
    | .ok (.inl _) => .error .outOfFuel
  | k + 1, s =>
    match body s with
    | .error f => .error f
    | .ok (.inr r) => .ok r
    | .ok (.inl s1) => forLoop body k s1

/-- The byte `/`. -/
def slash : Nat := 47

/-- The byte `.`. -/
def dot : Nat := 46

namespace path

/-- Go `path.lazybuf`: the buffer `buf` is allocated (`some`) only once the output
differs from the input `s`; `w` is the index of the next byte to write. -/
structure lazybuf where
  s : GoString
  buf : Option GoString
  w : Nat

/-- Go `(*lazybuf).index`. -/
def lazybuf.index (b : lazybuf) (i : Nat) : Except Fault Nat :=
  match b.buf with
  | some buf => byteAt buf i
  | none => byteAt b.s i

/-- Go `(*lazybuf).append`. While no buffer is allocated, a byte equal to the input
byte at `w` only advances `w`; otherwise the buffer is allocated with the length of
the input, the first `w` input bytes are copied, and the byte is stored at `w`. -/
def lazybuf.append (b : lazybuf) (c : Nat) : Except Fault lazybuf :=
  match b.buf with
  | none =>
    if b.w < b.s.length ∧ b.s[b.w]? = some c then
      .ok { b with w := b.w + 1 }
    else
      match sliceTo b.s b.w with
      | .error f => .error f
      | .ok pre =>
        let buf := pre ++ List.replicate (b.s.length - pre.length) 0
        if b.w < buf.length then
          .ok { b with buf := some (buf.set b.w c), w := b.w + 1 }
        else .error .indexOutOfRange
  | some buf =>
    if b.w < buf.length then
      .ok { b with buf := some (buf.set b.w c), w := b.w + 1 }
    else .error .indexOutOfRange

/-- Go `(*lazybuf).string`. -/
def lazybuf.string (b : lazybuf) : Except Fault GoString :=
  match b.buf with
  | none => sliceTo b.s b.w
  | some buf => sliceTo buf b.w

/-- One iteration of `for out.w > dotdot && out.index(out.w) != '/' { out.w-- }`. -/
def backtrackBody (dotdot : Nat) (out : lazybuf) : Except Fault (lazybuf ⊕ lazybuf) :=
  if out.w > dotdot then
    match out.index out.w with
    | .error f => .error f
    | .ok c => if c ≠ slash then .ok (.inl { out with w := out.w - 1 }) else .ok (.inr out)
  else .ok (.inr out)

/-- The loop `for out.w > dotdot && out.index(out.w) != '/' { out.w-- }` of `Clean`;
it runs at most `out.w` times. -/
def backtrack (dotdot : Nat) (out : lazybuf) : Except Fault lazybuf :=
  forLoop (backtrackBody dotdot) out.w out

/-- One iteration of `for ; r < n && path[r] != '/'; r++ { out.append(path[r]) }`. -/
def copyBody (p : GoString) (st : Nat × lazybuf) :
    Except Fault ((Nat × lazybuf) ⊕ (Nat × lazybuf)) :=
  if st.1 < p.length then
    match byteAt p st.1 with
    | .error f => .error f
    | .ok c =>
      if c ≠ slash then
        match st.2.append c with
        | .error f => .error f
        | .ok out1 => .ok (.inl (st.1 + 1, out1))
      else .ok (.inr st)
  else .ok (.inr st)

/-- The loop `for ; r < n && path[r] != '/'; r++ { out.append(path[r]) }` of `Clean`;
it runs at most `n - r` times. -/
def copyElem (p : GoString) (r : Nat) (out : lazybuf) : Except Fault (Nat × lazybuf) :=
  forLoop (copyBody p) (p.length - r) (r, out)

/-- The condition `path[r] == '.' && (r+1 == n || path[r+1] == '/')`, given `path[r]`. -/
def isDotElem (p : GoString) (r : Nat) (c : Nat) : Except Fault Bool :=
  if c = dot then
    if r + 1 = p.length then .ok true
    else
      match byteAt p (r + 1) with
      | .error f => .error f
      | .ok c1 => .ok (decide (c1 = slash))
  else .ok false

/-- The condition `path[r] == '.' && path[r+1] == '.' && (r+2 == n || path[r+2] == '/')`,
given `path[r]`. -/
def isDotDotElem (p : GoString) (r : Nat) (c : Nat) : Except Fault Bool :=
  if c = dot then
    match byteAt p (r + 1) with
    | .error f => .error f
    | .ok c1 =>
      if c1 = dot then
        if r + 2 = p.length then .ok true
        else
          match byteAt p (r + 2) with
          | .error f => .error f
          | .ok c2 => .ok (decide (c2 = slash))
      else .ok false
  else .ok false

/-- The body of the `..` case of `Clean` after `r += 2`: backtrack to the previous
slash when possible, else (unrooted) append a `..` element. Returns the buffer and
the new `dotdot`. -/
def dotDotStep (rooted : Bool) (dotdot : Nat) (out : lazybuf) : Except Fault (lazybuf × Nat) :=
  if out.w > dotdot then
    match backtrack dotdot { out with w := out.w - 1 } with
    | .error f => .error f
    | .ok out1 => .ok (out1, dotdot)
  else if !rooted then
    match (if out.w > 0 then out.append slash else .ok out) with
    | .error f => .error f
    | .ok out1 =>
      match out1.append dot with
      | .error f => .error f
      | .ok out2 =>
        match out2.append dot with
        | .error f => .error f
        | .ok out3 => .ok (out3, out3.w)
  else .ok (out, dotdot)

/-- The default case of `Clean`: a real path element. A slash is written first when
needed, then the element is copied. -/
def elemStep (p : GoString) (rooted : Bool) (r : Nat) (out : lazybuf) :
    Except Fault (Nat × lazybuf) :=
  match (if (rooted && out.w != 1) || (!rooted && out.w != 0) then out.append slash
         else .ok out) with
  | .error f => .error f
  | .ok out1 => copyElem p r out1

/-- One iteration of the main loop `for r < n { switch ... }` of `Clean`, on the
variables `r`, `dotdot` and `out`. -/
def cleanBody (p : GoString) (rooted : Bool) (st : Nat × Nat × lazybuf) :
    Except Fault ((Nat × Nat × lazybuf) ⊕ lazybuf) :=
  let (r, dotdot, out) := st
  if r < p.length then
    match byteAt p r with
    | .error f => .error f
    | .ok c =>
      if c = slash then .ok (.inl (r + 1, dotdot, out))
      else
        match isDotElem p r c with
        | .error f => .error f
        | .ok true => .ok (.inl (r + 1, dotdot, out))
        | .ok false =>
          match isDotDotElem p r c with
          | .error f => .error f
          | .ok true =>
            match dotDotStep rooted dotdot out with
            | .error f => .error f
            | .ok (out1, dotdot1) => .ok (.inl (r + 2, dotdot1, out1))
          | .ok false =>
            match elemStep p rooted r out with
            | .error f => .error f
            | .ok (r1, out1) => .ok (.inl (r1, dotdot, out1))
  else .ok (.inr out)

/-- Go `path.Clean`. -/
def Clean (p : GoString) : Except Fault GoString :=
  if p = [] then .ok (ascii ".")
  else
    match byteAt p 0 with
    | .error f => .error f
    | .ok c0 =>
      let rooted := decide (c0 = slash)
      let out : lazybuf := { s := p, buf := none, w := 0 }
      match (if rooted then out.append slash else .ok out) with
      | .error f => .error f
      | .ok out0 =>
        let r := if rooted then 1 else 0
        match forLoop (cleanBody p rooted) p.length (r, r, out0) with
        | .error f => .error f
        | .ok out1 => if out1.w = 0 then .ok (ascii ".") else out1.string

/-- Go `bytealg.LastIndexByteString` scanning the indices below `i` downwards:
the last index holding `c`, or `-1`. -/
def lastIndexBelow (s : GoString) (c : Nat) : Nat → Int
  | 0 => -1
  | i + 1 => if s[i]? = some c then (i : Int) else lastIndexBelow s c i

/-- Go `bytealg.LastIndexByteString`. -/
def LastIndexByteString (s : GoString) (c : Nat) : Int :=
  lastIndexBelow s c s.length

/-- Go `path.Split`: `path[:i+1], path[i+1:]` for `i` the last slash. -/
def Split (p : GoString) : Except Fault (GoString × GoString) :=
  let i := LastIndexByteString p slash
  match sliceTo p (i + 1).toNat, sliceFrom p (i + 1).toNat with
  | .ok dir, .ok file => .ok (dir, file)
  | .error f, _ => .error f
  | _, .error f => .error f

/-- Go `path.Dir`. -/
def Dir (p : GoString) : Except Fault GoString :=
  match Split p with
  | .error f => .error f
  | .ok (dir, _) => Clean dir

/-- One iteration of `for len(path) > 0 && path[len(path)-1] == '/'
{ path = path[0 : len(path)-1] }`. -/
def stripBody (p : GoString) : Except Fault (GoString ⊕ GoString) :=
  if p.length > 0 then
    match byteAt p (p.length - 1) with
    | .error f => .error f
    | .ok c =>
      if c = slash then
        match sliceTo p (p.length - 1) with
        | .error f => .error f
        | .ok p1 => .ok (.inl p1)
      else .ok (.inr p)
  else .ok (.inr p)

/-- Go `path.Base`. -/
def Base (p : GoString) : Except Fault GoString :=
  if p = [] then .ok (ascii ".")
  else
    match forLoop stripBody p.length p with
    | .error f => .error f
    | .ok p1 =>
      let i := LastIndexByteString p1 slash
      match (if i ≥ 0 then sliceFrom p1 (i + 1).toNat else .ok p1) with
      | .error f => .error f
      | .ok p2 => if p2 = [] then .ok (ascii "/") else .ok p2

end path

/-! ## Values, errors, time -/

/-- A Go `interface{}` value (request, response, server object, message). -/
inductive Any where
  | nil
  | int (n : Int)
  | str (s : GoString)
  deriving DecidableEq, Repr

/-- A Go `error` value: `none` is `nil`, `some m` an error with text `m`. -/
abbrev GoError := Option GoString

/-- The least `int64`. -/
def minInt64 : Int := -(2 ^ 63)

/-- The greatest `int64`. -/
def maxInt64 : Int := 2 ^ 63 - 1

namespace time

/-- An instant: nanoseconds on the clock that `time.Now` reads. -/
abbrev Time := Int

/-- A `time.Duration`: an `int64` count of nanoseconds. -/
abbrev Duration := Int

/-- Go `Time.Sub`: the difference `t - u`, saturated to the range of `Duration`. -/
def Sub (t u : Time) : Duration :=
  if t - u < minInt64 then minInt64
  else if t - u > maxInt64 then maxInt64
  else t - u

/-- Go `Duration.Nanoseconds`. -/
def Nanoseconds (d : Duration) : Int := d

end time

namespace codes

/-- A gRPC status code (`uint32`). -/
abbrev Code := Nat

def OK : Code := 0

def Internal : Code := 13

/-- Go `codes.Code.String`: the name of a defined code, `Code(n)` otherwise. -/
def String (c : Code) : GoString :=
  match c with
  | 0 => ascii "OK"
  | 1 => ascii "Canceled"
  | 2 => ascii "Unknown"
  | 3 => ascii "InvalidArgument"
  | 4 => ascii "DeadlineExceeded"
  | 5 => ascii "NotFound"
  | 6 => ascii "AlreadyExists"
  | 7 => ascii "PermissionDenied"
  | 8 => ascii "ResourceExhausted"
  | 9 => ascii "FailedPrecondition"
  | 10 => ascii "Aborted"
  | 11 => ascii "OutOfRange"
  | 12 => ascii "Unimplemented"
  | 13 => ascii "Internal"
  | 14 => ascii "Unavailable"
  | 15 => ascii "DataLoss"
  | 16 => ascii "Unauthenticated"
  | n => ascii "Code(" ++ ascii (toString n) ++ ascii ")"

end codes

/-! ## The zap logger -/

namespace zapcore

/-- A log severity (`int8`). -/
abbrev Level := Int

def DebugLevel : Level := -1

def InfoLevel : Level := 0

def WarnLevel : Level := 1

def ErrorLevel : Level := 2

def DPanicLevel : Level := 3

def PanicLevel : Level := 4

def FatalLevel : Level := 5

/-- A structured field. `float32 k v` holds the conversion to `float32` of the
integer `v`; the conversion itself is not computed. -/
inductive Field where
  | skip
  | error (key : GoString) (err : GoString)
  | string (key : GoString) (val : GoString)
  | float32 (key : GoString) (val : Int)
  deriving DecidableEq, Repr

/-- A `zapcore.Entry`, reduced to its level and message. -/
structure Entry where
  Level : Level
  Message : GoString
  deriving DecidableEq, Repr

/-- What the core of `zapcore.NewCore` writes to its output: the entry, the fields
accumulated in the core by `With`, and the fields given to `Write`. -/
structure Record where
  Level : Level
  Message : GoString
  Context : List Field
  Fields : List Field
  deriving DecidableEq, Repr

/-- The state that logger cores read and change: the records written so far (oldest
first), the state of the objects outside this package (such as the counters of a
sampling core), and the clock reading of `time.Now`. -/
structure Output where
  journal : List Record
  store : Nat → Int
  now : time.Time

/-- A core as a checked entry stores it: its `Write` method, the only method that
`CheckedEntry.Write` calls on a stored core. -/
abbrev Writer := Entry → List Field → Output → Output

/-- Go `zapcore.CheckWriteAction`. -/
inductive CheckWriteAction where
  | WriteThenNoop
  | WriteThenPanic
  | WriteThenFatal
  deriving DecidableEq, Repr

/-- A `zapcore.CheckedEntry`. -/
structure CheckedEntry where
  Entry : Entry
  should : CheckWriteAction
  cores : List Writer

/-- Go `(*CheckedEntry).AddCore`, defined on the nil pointer too. -/
def AddCore (ce : Option CheckedEntry) (ent : Entry) (core : Writer) : CheckedEntry :=
  match ce with
  | none => { Entry := ent, should := .WriteThenNoop, cores := [core] }
  | some ce => { ce with cores := ce.cores ++ [core] }

/-- Go `(*CheckedEntry).Should`, defined on the nil pointer too. -/
def Should (ce : Option CheckedEntry) (ent : Entry) (should : CheckWriteAction) : CheckedEntry :=
  match ce with
  | none => { Entry := ent, should := should, cores := [] }
  | some ce => { ce with should := should }

/-- A `zapcore.Core`, an interface that any type may implement: an object with a
state of its own and its behaviour on each method from that state. `onCheck` gives
the cores that `Check` adds to the checked entry for the given entry (by the contract
of `Core.Check` a core adds itself, or a composite core the cores its children add,
and does nothing else to the checked entry) together with the effect of the call. -/
structure Core where
  σ : Type
  state : σ
  onEnabled : σ → Level → Bool
  onWith : σ → List Field → σ
  onCheck : σ → Entry → Output → List Writer × Output
  onWrite : σ → Entry → List Field → Output → Output

/-- Go `Core.Enabled`. -/
def Core.Enabled (c : Core) (lvl : Level) : Bool := c.onEnabled c.state lvl

/-- Go `Core.With`: a core with the fields added. -/
def Core.With (c : Core) (fields : List Field) : Core :=
  { c with state := c.onWith c.state fields }

/-- Go `Core.Write`. -/
def Core.Write (c : Core) : Writer := c.onWrite c.state

/-- Go `Core.Check`: the checked entry with the cores added that this core adds. -/
def Core.Check (c : Core) (ent : Entry) (ce : Option CheckedEntry) (o : Output) :
    Option CheckedEntry × Output :=
  ((c.onCheck c.state ent o).1.foldl (fun acc wr => some (AddCore acc ent wr)) ce,
   (c.onCheck c.state ent o).2)

/-- Go `(*ioCore).Write`: one record is appended, made of the entry, the fields of the
encoder and the given fields. -/
def ioWrite (enc : List Field) : Writer :=
  fun ent fields o =>
    { o with journal := o.journal ++
        [{ Level := ent.Level, Message := ent.Message, Context := enc, Fields := fields }] }

/-- Go `zapcore.NewCore`: the core with a level enabler and the fields `enc` added to
its encoder. `With` adds fields to the encoder of the clone; `Check` adds the core
itself when it enables the level of the entry. -/
def ioCore (enab : Level → Bool) (enc : List Field) : Core :=
  { σ := List Field,
    state := enc,
    onEnabled := fun _ lvl => enab lvl,
    onWith := fun s fields => s ++ fields,
    onCheck := fun s ent o => (if enab ent.Level then [ioWrite s] else [], o),
    onWrite := ioWrite }

/-- Go `zapcore.NewNopCore`: enables nothing, `With` returns the core itself, `Check`
adds nothing and `Write` does nothing. -/
def nopCore : Core :=
  { σ := Unit,
    state := (),
    onEnabled := fun _ _ => false,
    onWith := fun _ _ => (),
    onCheck := fun _ _ o => ([], o),
    onWrite := fun _ _ _ o => o }

/-- Go `zapcore.NewTee` of two cores: every method goes to both cores in order. -/
def NewTee (c1 c2 : Core) : Core :=
  { σ := c1.σ × c2.σ,
    state := (c1.state, c2.state),
    onEnabled := fun s lvl => c1.onEnabled s.1 lvl || c2.onEnabled s.2 lvl,
    onWith := fun s fields => (c1.onWith s.1 fields, c2.onWith s.2 fields),
    onCheck := fun s ent o =>
      ((c1.onCheck s.1 ent o).1 ++ (c2.onCheck s.2 ent (c1.onCheck s.1 ent o).2).1,
       (c2.onCheck s.2 ent (c1.onCheck s.1 ent o).2).2),
    onWrite := fun s ent fields o => c2.onWrite s.2 ent fields (c1.onWrite s.1 ent fields o) }

/-- A core that drops entries by their message, as a sampling core keyed on the message
does once the message has been seen often enough: it is the core of `zapcore.NewCore`
except that `Check` adds nothing for an entry with the message `dropped`. -/
def droppingCore (dropped : GoString) (enab : Level → Bool) (enc : List Field) : Core :=
  { σ := List Field,
    state := enc,
    onEnabled := fun _ lvl => enab lvl,
    onWith := fun s fields => s ++ fields,
    onCheck := fun s ent o =>
      (if enab ent.Level && decide (ent.Message ≠ dropped) then [ioWrite s] else [], o),
    onWrite := ioWrite }

/-- Go `(*CheckedEntry).Write`: nothing on the nil pointer; otherwise every stored core
writes the entry, and then the entry's terminal action is carried out: a panic with the
message, or the exit of the process. -/
def Write (ce : Option CheckedEntry) (fields : List Field) (o : Output) :
    Except Fault Unit × Output :=
  match ce with
  | none => (.ok (), o)
  | some ce =>
    let o1 := ce.cores.foldl (fun acc wr => wr ce.Entry fields acc) o
    match ce.should with
    | .WriteThenNoop => (.ok (), o1)
    | .WriteThenPanic => (.error (.zapPanic ce.Entry.Message), o1)
    | .WriteThenFatal => (.error .zapFatal, o1)

end zapcore

namespace zap

open zapcore

/-- A `*zap.Logger`: its core and its development flag. -/
structure Logger where
  core : Core
  development : Bool

/-- Go `zap.NewNop`. -/
def NewNop : Logger := { core := nopCore, development := false }

/-- Go `(*Logger).With`: a child logger whose core has the fields added; the
receiver is unchanged. -/
def Logger.With (log : Logger) (fields : List Field) : Logger :=
  if fields = [] then log else { log with core := log.core.With fields }

/-- Go `(*Logger).Check`: the checked entry of the core, if the core will write the
entry, with the terminal behaviour of the panic and fatal levels set in any case. -/
def Logger.Check (log : Logger) (lvl : Level) (msg : GoString) (o : Output) :
    Option CheckedEntry × Output :=
  let ent : Entry := { Level := lvl, Message := msg }
  let (ce, o1) := log.core.Check ent none o
  if lvl = PanicLevel then (some (Should ce ent .WriteThenPanic), o1)
  else if lvl = FatalLevel then (some (Should ce ent .WriteThenFatal), o1)
  else if lvl = DPanicLevel then
    if log.development then (some (Should ce ent .WriteThenPanic), o1) else (ce, o1)
  else (ce, o1)

/-- Go `zap.String`. -/
def String (key val : GoString) : Field := .string key val

/-- Go `zap.Float32`, applied to the `float32` conversion of `val`. -/
def Float32 (key : GoString) (val : Int) : Field := .float32 key val

/-- Go `zap.Error`: `NamedError("error", err)`, a skipped field when `err` is nil. -/
def Error (err : GoError) : Field :=
  match err with
  | none => .skip
  | some e => .error (ascii "error") e

end zap

/-! ## State, contexts and the logger carrier -/

open zapcore zap

/-- The state that the interceptors and the functions they call read and change:
the state of the logger cores (records written, outside objects, clock), the heap of
logger holders used by the context carrier, and the package variable `SystemField`. -/
structure World extends Output where
  holders : List Logger
  SystemField : Field

/-- A key of a context value: the marker key of this package, or another key. -/
inductive Key where
  | ctxMarkerKey
  | other (k : Nat)
  deriving DecidableEq, Repr

/-- A context value: a pointer to a logger holder, or another value. -/
inductive CtxValue where
  | holder (ptr : Nat)
  | other (v : Any)
  deriving DecidableEq, Repr

/-- A `context.Context`: a root context, or a context derived by `context.WithValue`. -/
inductive Context where
  | root (id : Nat)
  | WithValue (parent : Context) (key : Key) (val : CtxValue)
  deriving DecidableEq, Repr

/-- Go `Context.Value`: the value of the innermost binding of the key. -/
def Context.Value : Context → Key → Option CtxValue
  | .root _, _ => none
  | .WithValue parent key val, k => if k = key then some val else parent.Value k

/-- Modelled from the spec: the fallback logger of `Extract` in `context.go`, a no-op
logger returned when no logger was attached. -/
def nullLogger : Logger := zap.NewNop

/-- Modelled from the spec: `toContext` of `context.go` (attach). It returns a new
context layered on `ctx` whose marker key refers to a fresh holder containing
`logger`; `ctx` and the existing holders are not changed. -/
def toContext (ctx : Context) (logger : Logger) (w : World) : Context × World :=
  (.WithValue ctx .ctxMarkerKey (.holder w.holders.length),
   { w with holders := w.holders ++ [logger] })

/-- Modelled from the spec: `Extract` of `context.go`. It returns the logger now held
by the holder most recently attached to `ctx`, and the no-op logger when there is
none; it never fails. -/
def Extract (ctx : Context) (w : World) : Logger :=
  match ctx.Value .ctxMarkerKey with
  | some (.holder ptr) =>
    match w.holders[ptr]? with
    | some l => l
    | none => nullLogger
  | _ => nullLogger

/-- Modelled from the spec: the handler-side enrichment of `context.go`, which replaces
the logger held for `ctx` by the logger derived from it with extra fields. Nothing
happens when no logger is attached. -/
def AddFields (ctx : Context) (fields : List Field) (w : World) : World :=
  match ctx.Value .ctxMarkerKey with
  | some (.holder ptr) =>
    match w.holders[ptr]? with
    | some l => { w with holders := w.holders.set ptr (l.With fields) }
    | none => w
  | _ => w

/-! ## gRPC types -/

namespace grpc

/-- Metadata sent in headers and trailers. -/
abbrev MD := List (GoString × GoString)

/-- Go `grpc.UnaryServerInfo`. -/
structure UnaryServerInfo where
  Server : Any
  FullMethod : GoString

/-- Go `grpc.StreamServerInfo`. -/
structure StreamServerInfo where
  FullMethod : GoString
  IsClientStream : Bool
  IsServerStream : Bool

/-- Go `grpc.UnaryHandler`: a handler that returns, with its effect on the state. -/
abbrev UnaryHandler := Context → Any → World → (Any × GoError) × World

/-- Go `grpc.ServerStream`: the method set of a stream. -/
structure ServerStream where
  SetHeader : MD → World → GoError × World
  SendHeader : MD → World → GoError × World
  SetTrailer : MD → World → World
  Context : Context
  SendMsg : Any → World → GoError × World
  RecvMsg : Any → World → (Any × GoError) × World

/-- Go `grpc.StreamHandler`: a handler that returns, with its effect on the state. -/
abbrev StreamHandler := Any → ServerStream → World → GoError × World

end grpc

namespace grpc_middleware

/-- Modelled from the spec: `WrappedServerStream` of `wrappers.go`, a proxy holding
the original stream and its own context. -/
structure WrappedServerStream where
  ServerStream : grpc.ServerStream
  WrappedContext : Context

/-- Modelled from the spec: `WrapServerStream` of `wrappers.go`. The proxy starts with
the context of the stream it wraps. -/
def WrapServerStream (stream : grpc.ServerStream) : WrappedServerStream :=
  { ServerStream := stream, WrappedContext := stream.Context }

/-- Modelled from the spec: the proxy seen as a `grpc.ServerStream`. Its context
accessor returns `WrappedContext`; every other operation is that of the wrapped
stream. -/
def WrappedServerStream.toStream (ws : WrappedServerStream) : grpc.ServerStream :=
  { ws.ServerStream with Context := ws.WrappedContext }

end grpc_middleware

/-! ## The interceptors -/

/-- The evaluated options `o := evaluateOptions(opts)`: the two policy functions.
Each is a Go function, so it returns its result together with its effect on the
state. -/
structure options where
  levelFunc : codes.Code → World → Level × World
  codeFunc : GoError → World → codes.Code × World

/-- The default value of the package variable `SystemField`. -/
def defaultSystemField : Field := zap.String (ascii "system") (ascii "grpc")

/-- Go `newLoggerForCall`. -/
def newLoggerForCall (ctx : Context) (logger : Logger) (fullMethodString : GoString)
    (w : World) : Except Fault Context × World :=
  match path.Dir fullMethodString with
  | .error f => (.error f, w)
  | .ok dir =>
    match sliceFrom dir 1 with
    | .error f => (.error f, w)
    | .ok service =>
      match path.Base fullMethodString with
      | .error f => (.error f, w)
      | .ok method =>
        let callLog := logger.With [
          w.SystemField,
          zap.String (ascii "grpc.service") service,
          zap.String (ascii "grpc.method") method]
        let (newCtx, w1) := toContext ctx callLog w
        (.ok newCtx, w1)

/-- Go `timeDiffToMilliseconds`, before the final conversion to `float32`:
`time.Now().Sub(then).Nanoseconds() / 1000 / 1000` in `int64` arithmetic, where
division truncates toward zero. -/
def timeDiffToMilliseconds (then_ : time.Time) (w : World) : Int :=
  (time.Nanoseconds (time.Sub w.now then_)).tdiv 1000 |>.tdiv 1000

/-- Go `UnaryServerInterceptor`: the function it returns, for the logger and the
evaluated options `o`. The receiver `Extract(newCtx).Check(level, msg)` of `Write` is
evaluated before the arguments of `Write`. -/
def UnaryServerInterceptor (logger : Logger) (o : options) (ctx : Context) (req : Any)
    (info : grpc.UnaryServerInfo) (handler : grpc.UnaryHandler) (w : World) :
    Except Fault (Any × GoError) × World :=
  match newLoggerForCall ctx logger info.FullMethod w with
  | (.error f, w1) => (.error f, w1)
  | (.ok newCtx, w1) =>
    let startTime := w1.now
    let ((resp, err), w2) := handler newCtx req w1
    let (code, w3) := o.codeFunc err w2
    let (level, w4) := o.levelFunc code w3
    let (ce, o5) := (Extract newCtx w4).Check level (ascii "finished unary call") w4.toOutput
    let w5 : World := { w4 with toOutput := o5 }
    match zapcore.Write ce [
        zap.Error err,
        zap.String (ascii "grpc.code") (codes.String code),
        zap.Float32 (ascii "grpc.time_ms") (timeDiffToMilliseconds startTime w5)]
        w5.toOutput with
    | (.error f, o6) => (.error f, { w5 with toOutput := o6 })
    | (.ok _, o6) => (.ok (resp, err), { w5 with toOutput := o6 })

/-- Go `StreamServerInterceptor`: the function it returns, for the logger and the
evaluated options `o`. -/
def StreamServerInterceptor (logger : Logger) (o : options) (srv : Any)
    (stream : grpc.ServerStream) (info : grpc.StreamServerInfo)
    (handler : grpc.StreamHandler) (w : World) : Except Fault GoError × World :=
  match newLoggerForCall stream.Context logger info.FullMethod w with
  | (.error f, w1) => (.error f, w1)
  | (.ok newCtx, w1) =>
    let wrapped := grpc_middleware.WrapServerStream stream
    let wrapped := { wrapped with WrappedContext := newCtx }
    let startTime := w1.now
    let (err, w2) := handler srv wrapped.toStream w1
    let (code, w3) := o.codeFunc err w2
    let (level, w4) := o.levelFunc code w3
    let (ce, o5) := (Extract newCtx w4).Check level (ascii "finished streaming call")
      w4.toOutput
    let w5 : World := { w4 with toOutput := o5 }
    match zapcore.Write ce [
        zap.Error err,
        zap.String (ascii "grpc.code") (codes.String code),
        zap.Float32 (ascii "grpc.time_ms") (timeDiffToMilliseconds startTime w5)]
        w5.toOutput with
    | (.error f, o6) => (.error f, { w5 with toOutput := o6 })
    | (.ok _, o6) => (.ok err, { w5 with toOutput := o6 })

namespace path

/-- Well-formedness of a `lazybuf` over an input of length `n`: the input has length
`n`, the write index is within it, and an allocated buffer has length `n`. -/
def lazybuf.ok (b : lazybuf) (n : Nat) : Prop :=
  b.s.length = n ∧ b.w ≤ n ∧ ∀ buf, b.buf = some buf → buf.length = n

end path

/-! ## Definitions used to state the theorems -/

/-- Whether a `Check` at `lvl` on `log` yields an entry whose `Write` ends in a panic
or in the exit of the process: the panic and fatal levels, and the development-panic
level on a development logger. -/
def stopsAfterWrite (log : Logger) (lvl : Level) : Bool :=
  lvl == PanicLevel || lvl == FatalLevel || (lvl == DPanicLevel && log.development)

/-- The outcome of `Write` after a `Check` at `lvl` on `log`, in terms of the value
`a` to return when `Write` returns. -/
def afterWrite {α : Type} (log : Logger) (lvl : Level) (msg : GoString) (a : α) :
    Except Fault α :=
  if stopsAfterWrite log lvl = true then
    (if lvl = FatalLevel then .error .zapFatal else .error (.zapPanic msg))
  else .ok a

/-- The cores that the core of `log` adds in `Check` for the entry, and the state after
the call. -/
def accepted (log : Logger) (ent : Entry) (o : Output) : List Writer × Output :=
  log.core.onCheck log.core.state ent o

/-- Every core of the list writes the entry once, in order. -/
def writeAll (ws : List Writer) (ent : Entry) (fields : List Field) (o : Output) : Output :=
  ws.foldl (fun acc wr => wr ent fields acc) o

/-- The fields of the completion record: the error, `grpc.code`, `grpc.time_ms`. -/
def completionFields (err : GoError) (code : codes.Code) (ms : Int) : List Field :=
  [zap.Error err, zap.String (ascii "grpc.code") (codes.String code),
    zap.Float32 (ascii "grpc.time_ms") ms]

/-- The message of the unary completion record. -/
def unaryMsg : GoString := ascii "finished unary call"

/-- The message of the streaming completion record. -/
def streamMsg : GoString := ascii "finished streaming call"

/-- The stream object that `StreamServerInterceptor` passes to the handler: the proxy
of `WrapServerStream` with its `WrappedContext` set to `newCtx`, as a stream. -/
def wrappedFor (stream : grpc.ServerStream) (newCtx : Context) : grpc.ServerStream :=
  ({ grpc_middleware.WrapServerStream stream with WrappedContext := newCtx }).toStream

/-- The state `w` with the state of the logger cores replaced by `o`. -/
def World.withOutput (w : World) (o : Output) : World := { w with toOutput := o }

/-! ## Concrete inputs -/

deriving instance DecidableEq for Except

/-- A state with no holder, an empty journal, the clock at zero and the default
`SystemField`. -/
def exampleWorld : World :=
  { journal := [], store := fun _ => 0, now := 0, holders := [],
    SystemField := defaultSystemField }

/-- A production logger on the core of `zapcore.NewCore` that enables the info level
and above. -/
def infoLogger : Logger :=
  { core := ioCore (fun l => decide (InfoLevel ≤ l)) [], development := false }

/-- A production logger on the core of `zapcore.NewCore` that enables the error level
and above. -/
def errorLogger : Logger :=
  { core := ioCore (fun l => decide (ErrorLevel ≤ l)) [], development := false }

/-- A logger on a tee of two cores of `zapcore.NewCore` that enable the info level and
above. -/
def teeLogger : Logger :=
  { core := NewTee (ioCore (fun l => decide (InfoLevel ≤ l)) [])
      (ioCore (fun l => decide (InfoLevel ≤ l)) []),
    development := false }

/-- A logger that enables the info level and above on a core that drops the entries
with the message of the streaming completion record. -/
def droppingLogger : Logger :=
  { core := droppingCore streamMsg (fun l => decide (InfoLevel ≤ l)) [],
    development := false }

/-- A policy without side effects: no error is `OK` at the info level, any error is
`Internal` at the error level. -/
def examplePolicy : options :=
  { codeFunc := fun err w => ((match err with | none => codes.OK | some _ => codes.Internal), w),
    levelFunc := fun c w => ((if c = codes.OK then InfoLevel else ErrorLevel), w) }

/-- A policy that logs every call at the fatal level. -/
def fatalPolicy : options :=
  { codeFunc := examplePolicy.codeFunc, levelFunc := fun _ w => (FatalLevel, w) }

/-- The call metadata of `/pkg.Service/Method`. -/
def exampleInfo : grpc.UnaryServerInfo :=
  { Server := .nil, FullMethod := ascii "/pkg.Service/Method" }

/-- The stream metadata of `/pkg.Service/Method`. -/
def exampleStreamInfo : grpc.StreamServerInfo :=
  { FullMethod := ascii "/pkg.Service/Method", IsClientStream := true, IsServerStream := true }

/-- A handler that returns its request and no error after 1999999 ns. -/
def echoHandler : grpc.UnaryHandler :=
  fun _ req w => ((req, none), { w with now := w.now + 1999999 })

/-- A streaming handler that returns no error after 1999999 ns. -/
def echoStreamHandler : grpc.StreamHandler :=
  fun _ _ w => (none, { w with now := w.now + 1999999 })

/-- The field that the enriching handlers add. -/
def requestIdField : Field := zap.String (ascii "request.id") (ascii "42")

/-- A unary handler that adds a field to the logger held for its context and fails. -/
def enrichingHandler : grpc.UnaryHandler :=
  fun ctx _ w => ((.nil, some (ascii "boom")), AddFields ctx [requestIdField] w)

/-- A streaming handler that adds a field to the logger held for the context of its
stream and fails. -/
def enrichingStreamHandler : grpc.StreamHandler :=
  fun _ stream w => (some (ascii "boom"), AddFields stream.Context [requestIdField] w)

/-- A streaming handler that fails with the same error and adds no field. -/
def failingStreamHandler : grpc.StreamHandler :=
  fun _ _ w => (some (ascii "boom"), w)

/-- A stream over a root context whose operations do nothing. -/
def exampleStream : grpc.ServerStream :=
  { SetHeader := fun _ w => (none, w),
    SendHeader := fun _ w => (none, w),
    SetTrailer := fun _ w => w,
    Context := .root 0,
    SendMsg := fun _ w => (none, w),
    RecvMsg := fun m w => ((m, none), w) }

/-! ## Loops -/

/-- A loop whose body preserves an invariant and decreases a measure on every
continuing iteration returns, given at least as much fuel as the measure, and its
result satisfies what the exiting iteration establishes. -/
theorem forLoop_ok {σ ρ : Type} (body : σ → Except Fault (σ ⊕ ρ)) (Inv : σ → Prop)
    (m : σ → Nat) (Post : ρ → Prop)
    (hstep : ∀ s, Inv s →
      (∃ s1, body s = .ok (.inl s1) ∧ Inv s1 ∧ m s1 < m s) ∨
      (∃ r, body s = .ok (.inr r) ∧ Post r)) :
    ∀ (fuel : Nat) (s : σ), Inv s → m s ≤ fuel → ∃ r, forLoop body fuel s = .ok r ∧ Post r := by
  intro fuel
  induction fuel with
  | zero =>
    intro s hs hm
    rcases hstep s hs with ⟨s1, _, _, h3⟩ | ⟨r, h1, h2⟩
    · omega
    · exact ⟨r, by simp [forLoop, h1], h2⟩
  | succ k ih =>
    intro s hs hm
    rcases hstep s hs with ⟨s1, h1, h2, h3⟩ | ⟨r, h1, h2⟩
    · obtain ⟨r, hr, hp⟩ := ih s1 h2 (by omega)
      exact ⟨r, by simp [forLoop, h1, hr], hp⟩
    · exact ⟨r, by simp [forLoop, h1], h2⟩

theorem byteAt_of_lt (s : GoString) (i : Nat) (h : i < s.length) :
    ∃ c, byteAt s i = .ok c ∧ s[i]? = some c := by
  refine ⟨s[i], ?_, ?_⟩
  · simp [byteAt, List.getElem?_eq_getElem h]
  · exact List.getElem?_eq_getElem h

theorem byteAt_of_getElem? (s : GoString) (i c : Nat) (h : s[i]? = some c) :
    byteAt s i = .ok c := by
  simp [byteAt, h]

namespace path

theorem lazybuf.append_ok (b : lazybuf) (n c : Nat) (hb : b.ok n) (hw : b.w < n) :
    ∃ b1, b.append c = .ok b1 ∧ b1.ok n ∧ b1.w = b.w + 1 := by
  obtain ⟨hs, hwn, hbuf⟩ := hb
  unfold lazybuf.append
  cases hq : b.buf with
  | none =>
    simp only
    split
    · exact ⟨_, rfl, ⟨hs, by simpa using hw, by simp [hq]⟩, rfl⟩
    · have h1 : b.w ≤ b.s.length := by omega
      simp only [sliceTo, h1, if_true]
      have h2 : b.w < (List.take b.w b.s ++ List.replicate (b.s.length - (List.take b.w b.s).length) 0).length := by
        simp [List.length_take]; omega
      simp only [h2, if_true]
      refine ⟨_, rfl, ⟨hs, by simpa using hw, ?_⟩, rfl⟩
      intro buf hbuf1
      simp at hbuf1
      subst hbuf1
      simp [List.length_take]; omega
  | some buf =>
    have hl := hbuf buf hq
    simp only [hl, hw, if_true]
    refine ⟨_, rfl, ⟨hs, by simpa using hw, ?_⟩, rfl⟩
    intro buf1 hbuf1
    simp at hbuf1
    subst hbuf1
    simpa using hl

theorem lazybuf.index_ok (b : lazybuf) (n i : Nat) (hb : b.ok n) (hi : i < n) :
    ∃ c, b.index i = .ok c := by
  obtain ⟨hs, _, hbuf⟩ := hb
  unfold lazybuf.index
  cases hq : b.buf with
  | none =>
    obtain ⟨c, hc, _⟩ := byteAt_of_lt b.s i (by omega)
    exact ⟨c, hc⟩
  | some buf =>
    obtain ⟨c, hc, _⟩ := byteAt_of_lt buf i (by rw [hbuf buf hq]; exact hi)
    exact ⟨c, hc⟩

theorem backtrack_ok (dotdot n : Nat) (out : lazybuf) (hb : out.ok n) (hw : out.w < n) :
    ∃ out1, backtrack dotdot out = .ok out1 ∧ out1.ok n ∧ out1.w ≤ out.w := by
  unfold backtrack
  refine forLoop_ok (backtrackBody dotdot) (fun o => o.ok n ∧ o.w < n ∧ o.w ≤ out.w)
    (fun o => o.w) (fun o => o.ok n ∧ o.w ≤ out.w) ?_ out.w out ⟨hb, hw, le_refl _⟩ (le_refl _)
  rintro o ⟨ho, how, hle⟩
  unfold backtrackBody
  by_cases hd : o.w > dotdot
  · obtain ⟨c, hc⟩ := lazybuf.index_ok o n o.w ho how
    simp only [hd, if_true, hc]
    by_cases hcs : c ≠ slash
    · left
      have hcs1 : ¬ c = slash := hcs
      refine ⟨{ o with w := o.w - 1 }, by simp only [ne_eq, hcs1, not_false_eq_true, if_true],
        ⟨⟨ho.1, ?_, ho.2.2⟩, ?_, ?_⟩, ?_⟩ <;> simp only <;> omega
    · right
      exact ⟨o, by simp only [hcs, if_false], ho, hle⟩
  · right
    exact ⟨o, by simp only [hd, if_false], ho, hle⟩

end path

namespace path

theorem copyElem_ok (p : GoString) (r : Nat) (out : lazybuf) (hb : out.ok p.length)
    (hw : out.w ≤ r) (hr : r ≤ p.length) :
    ∃ r1 out1, copyElem p r out = .ok (r1, out1) ∧ out1.ok p.length ∧ out1.w ≤ r1 ∧
      r1 ≤ p.length ∧ (r1 = p.length ∨ p[r1]? = some slash) ∧
      ((∃ c, p[r]? = some c ∧ c ≠ slash) → r < r1) := by
  unfold copyElem
  have key := forLoop_ok (copyBody p)
    (fun st => st.2.ok p.length ∧ st.2.w ≤ st.1 ∧ st.1 ≤ p.length ∧ r ≤ st.1)
    (fun st => p.length - st.1)
    (fun st => st.2.ok p.length ∧ st.2.w ≤ st.1 ∧ st.1 ≤ p.length ∧
      (st.1 = p.length ∨ p[st.1]? = some slash) ∧
      ((∃ c, p[r]? = some c ∧ c ≠ slash) → r < st.1)) ?_ (p.length - r) (r, out)
    ⟨hb, hw, hr, le_refl _⟩ (le_refl _)
  · obtain ⟨⟨r1, out1⟩, h1, h2⟩ := key
    exact ⟨r1, out1, h1, h2⟩
  · rintro ⟨r0, o⟩ ⟨ho, how, hr0, hrr⟩
    simp only at ho how hr0 hrr
    unfold copyBody
    by_cases hlt : r0 < p.length
    · obtain ⟨c, hc, hc1⟩ := byteAt_of_lt p r0 hlt
      simp only [hlt, if_true, hc]
      by_cases hcs : c = slash
      · right
        refine ⟨(r0, o), by simp [hcs], ho, how, hr0, Or.inr (by rw [hc1, hcs]), ?_⟩
        rintro ⟨c2, hc2, hc3⟩
        rcases Nat.eq_or_lt_of_le hrr with h | h
        · subst h
          rw [hc1] at hc2
          simp at hc2
          omega
        · exact h
      · left
        obtain ⟨o1, ho1, ho2, ho3⟩ := lazybuf.append_ok o p.length c ho (by omega)
        refine ⟨(r0 + 1, o1), by simp [hcs, ho1], ⟨ho2, ?_, ?_, ?_⟩, ?_⟩ <;> simp only <;> omega
    · right
      refine ⟨(r0, o), by simp [hlt], ho, how, hr0, Or.inl (by omega), ?_⟩
      rintro ⟨c2, hc2, _⟩
      have : r < p.length := by
        by_contra hcon
        rw [List.getElem?_eq_none (by omega)] at hc2
        simp at hc2
      simp only
      omega

theorem isDotElem_ok (p : GoString) (r c : Nat) (hr : r < p.length) :
    ∃ b, isDotElem p r c = .ok b := by
  unfold isDotElem
  by_cases hc : c = dot
  · by_cases hn : r + 1 = p.length
    · exact ⟨true, by simp [hc, hn]⟩
    · obtain ⟨c1, hc1, _⟩ := byteAt_of_lt p (r + 1) (by omega)
      exact ⟨decide (c1 = slash), by simp [hc, hn, hc1]⟩
  · exact ⟨false, by simp [hc]⟩

theorem isDotDotElem_ok (p : GoString) (r c : Nat) (hr : r < p.length)
    (hd : isDotElem p r c = .ok false) :
    ∃ b, isDotDotElem p r c = .ok b ∧
      (b = true → r + 2 ≤ p.length ∧ (r + 2 = p.length ∨ p[r + 2]? = some slash)) := by
  unfold isDotDotElem
  by_cases hc : c = dot
  · have hn : r + 1 ≠ p.length := by
      intro hn
      simp [isDotElem, hc, hn] at hd
    obtain ⟨c1, hc1, _⟩ := byteAt_of_lt p (r + 1) (by omega)
    by_cases hd1 : c1 = dot
    · by_cases hn2 : r + 2 = p.length
      · exact ⟨true, by simp [hc, hc1, hd1, hn2], fun _ => ⟨by omega, Or.inl hn2⟩⟩
      · obtain ⟨c2, hc2, hc3⟩ := byteAt_of_lt p (r + 2) (by omega)
        refine ⟨decide (c2 = slash), by simp [hc, hc1, hd1, hn2, hc2], ?_⟩
        intro h
        simp at h
        exact ⟨by omega, Or.inr (by rw [hc3, h])⟩
    · exact ⟨false, by simp [hc, hc1, hd1], by simp⟩
  · exact ⟨false, by simp [hc], by simp⟩

theorem dotDotStep_ok (rooted : Bool) (dotdot n r : Nat) (out : lazybuf) (hb : out.ok n)
    (hw : out.w ≤ r) (hr : r + 2 ≤ n) (hs : out.w > 0 → rooted = false → out.w < r) :
    ∃ out1 dd1, dotDotStep rooted dotdot out = .ok (out1, dd1) ∧ out1.ok n ∧
      out1.w ≤ r + 2 := by
  unfold dotDotStep
  by_cases hd : out.w > dotdot
  · obtain ⟨o1, h1, h2, h3⟩ := backtrack_ok dotdot n { out with w := out.w - 1 }
      ⟨hb.1, by simp only; omega, hb.2.2⟩ (by simp only; omega)
    simp only at h3
    exact ⟨o1, dotdot, by simp [hd, h1], h2, by omega⟩
  · cases rooted with
    | true => exact ⟨out, dotdot, by simp [hd], hb, by omega⟩
    | false =>
      simp only [hd, if_false, Bool.not_false, if_true]
      by_cases h0 : out.w > 0
      · have hlt := hs h0 rfl
        obtain ⟨o1, h1, h2, h3⟩ := lazybuf.append_ok out n slash hb (by omega)
        obtain ⟨o2, h4, h5, h6⟩ := lazybuf.append_ok o1 n dot h2 (by omega)
        obtain ⟨o3, h7, h8, h9⟩ := lazybuf.append_ok o2 n dot h5 (by omega)
        exact ⟨o3, o3.w, by simp [h0, h1, h4, h7], h8, by omega⟩
      · obtain ⟨o2, h4, h5, h6⟩ := lazybuf.append_ok out n dot hb (by omega)
        obtain ⟨o3, h7, h8, h9⟩ := lazybuf.append_ok o2 n dot h5 (by omega)
        exact ⟨o3, o3.w, by simp [h0, h4, h7], h8, by omega⟩

theorem elemStep_ok (p : GoString) (rooted : Bool) (r : Nat) (out : lazybuf)
    (hb : out.ok p.length) (hw : out.w ≤ r) (hr : r < p.length)
    (hc : ∃ c, p[r]? = some c ∧ c ≠ slash)
    (hs : ((rooted && out.w != 1) || (!rooted && out.w != 0)) = true → out.w < r) :
    ∃ r1 out1, elemStep p rooted r out = .ok (r1, out1) ∧ out1.ok p.length ∧ out1.w ≤ r1 ∧
      r1 ≤ p.length ∧ (r1 = p.length ∨ p[r1]? = some slash) ∧ r < r1 := by
  unfold elemStep
  by_cases hq : ((rooted && out.w != 1) || (!rooted && out.w != 0)) = true
  · have hlt := hs hq
    obtain ⟨o1, h1, h2, h3⟩ := lazybuf.append_ok out p.length slash hb (by omega)
    obtain ⟨r1, o2, h4, h5, h6, h7, h8, h9⟩ := copyElem_ok p r o1 h2 (by omega) (by omega)
    exact ⟨r1, o2, by simp only [hq, if_true, h1, h4], h5, h6, h7, h8, h9 hc⟩
  · obtain ⟨r1, o2, h4, h5, h6, h7, h8, h9⟩ := copyElem_ok p r out hb hw (by omega)
    exact ⟨r1, o2, by simp [hq, h4], h5, h6, h7, h8, h9 hc⟩

end path

namespace path

/-- The main loop of `Clean` returns a well-formed buffer from every state that
satisfies its invariant: the write index never passes the read index, and where the
two meet the next byte to read is a slash, the input is exhausted, or nothing but the
leading slash has been written. -/
theorem cleanLoop_ok (p : GoString) (rooted : Bool) (r dotdot : Nat) (out : lazybuf)
    (hb : out.ok p.length) (hr : r ≤ p.length) (hw : out.w ≤ r)
    (he : out.w = r → r = p.length ∨ p[r]? = some slash ∨ out.w = (if rooted then 1 else 0)) :
    ∃ out1, forLoop (cleanBody p rooted) p.length (r, dotdot, out) = .ok out1 ∧
      out1.ok p.length := by
  refine forLoop_ok (cleanBody p rooted)
    (fun st => st.2.2.ok p.length ∧ st.1 ≤ p.length ∧ st.2.2.w ≤ st.1 ∧
      (st.2.2.w = st.1 → st.1 = p.length ∨ p[st.1]? = some slash ∨
        st.2.2.w = (if rooted then 1 else 0)))
    (fun st => p.length - st.1) (fun o => o.ok p.length) ?_ p.length (r, dotdot, out)
    ⟨hb, hr, hw, he⟩ (by simp)
  rintro ⟨r0, dd, o⟩ ⟨ho, hr0, hw0, he0⟩
  simp only at ho hr0 hw0 he0
  unfold cleanBody
  simp only
  by_cases hlt : r0 < p.length
  · left
    obtain ⟨c, hc, hc1⟩ := byteAt_of_lt p r0 hlt
    simp only [hlt, if_true, hc]
    by_cases hcs : c = slash
    · exact ⟨(r0 + 1, dd, o), by simp [hcs], ⟨ho, by omega, by simp only; omega,
        by simp only; omega⟩, by simp only; omega⟩
    · simp only [hcs, if_false]
      obtain ⟨b, hb1⟩ := isDotElem_ok p r0 c hlt
      cases b with
      | true =>
        exact ⟨(r0 + 1, dd, o), by simp [hb1], ⟨ho, by omega, by simp only; omega,
          by simp only; omega⟩, by simp only; omega⟩
      | false =>
        obtain ⟨b2, hb2, hb3⟩ := isDotDotElem_ok p r0 c hlt hb1
        have hneed : o.w = r0 → o.w = (if rooted then 1 else 0) := by
          intro h
          rcases he0 h with h1 | h1 | h1
          · omega
          · rw [hc1] at h1
            simp at h1
            exact absurd h1 hcs
          · exact h1
        cases b2 with
        | true =>
          obtain ⟨h3, h4⟩ := hb3 rfl
          obtain ⟨o1, dd1, h5, h6, h7⟩ := dotDotStep_ok rooted dd p.length r0 o ho hw0 h3 (by
            intro hpos hroot
            rcases Nat.eq_or_lt_of_le hw0 with h | h
            · have := hneed h
              simp [hroot] at this
              omega
            · exact h)
          refine ⟨(r0 + 2, dd1, o1), by simp [hb1, hb2, h5], ⟨h6, h3, h7, ?_⟩, by simp only; omega⟩
          intro _
          rcases h4 with h4 | h4
          · exact Or.inl h4
          · exact Or.inr (Or.inl h4)
        | false =>
          obtain ⟨r1, o1, h5, h6, h7, h8, h9, h10⟩ := elemStep_ok p rooted r0 o ho hw0 hlt
            ⟨c, hc1, hcs⟩ (by
              intro hq
              rcases Nat.eq_or_lt_of_le hw0 with h | h
              · have := hneed h
                cases rooted <;> simp [this] at hq
              · exact h)
          refine ⟨(r1, dd, o1), by simp [hb1, hb2, h5], ⟨h6, h8, h7, ?_⟩, by simp only; omega⟩
          intro _
          rcases h9 with h9 | h9
          · exact Or.inl h9
          · exact Or.inr (Or.inl h9)
  · right
    exact ⟨o, by simp [hlt], ho⟩

theorem lazybuf.string_ok (b : lazybuf) (n : Nat) (hb : b.ok n) :
    ∃ s, b.string = .ok s ∧ s.length = b.w := by
  obtain ⟨hs, hw, hbuf⟩ := hb
  unfold lazybuf.string
  cases hq : b.buf with
  | none =>
    have h1 : b.w ≤ b.s.length := by omega
    exact ⟨b.s.take b.w, by simp [sliceTo, h1], by simp [List.length_take, h1]⟩
  | some buf =>
    have hl := hbuf buf hq
    have h1 : b.w ≤ buf.length := by omega
    exact ⟨buf.take b.w, by simp [sliceTo, h1], by simp [List.length_take, h1]⟩

/-- The function `Clean` returns on every input, and what it returns is not the empty
string. -/
theorem Clean_ok (p : GoString) : ∃ s, Clean p = .ok s ∧ s ≠ [] := by
  unfold Clean
  by_cases hp : p = []
  · exact ⟨ascii ".", by simp [hp], by decide⟩
  · have hlen : 0 < p.length := List.length_pos.mpr hp
    obtain ⟨c0, hc0, hc1⟩ := byteAt_of_lt p 0 hlen
    simp only [hp, if_false, hc0]
    have hinit : (⟨p, none, 0⟩ : lazybuf).ok p.length := ⟨rfl, by simp, by simp⟩
    have hfin : ∀ o1 : lazybuf, o1.ok p.length →
        ∃ s, (if o1.w = 0 then Except.ok (ascii ".") else o1.string) = .ok s ∧ s ≠ [] := by
      intro o1 h5
      by_cases hz : o1.w = 0
      · exact ⟨ascii ".", by simp [hz], by decide⟩
      · obtain ⟨s, hs1, hs2⟩ := lazybuf.string_ok o1 p.length h5
        refine ⟨s, by simp [hz, hs1], ?_⟩
        intro hcon
        rw [hcon] at hs2
        simp at hs2
        omega
    by_cases hroot : c0 = slash
    · obtain ⟨o0, h1, h2, h3⟩ := lazybuf.append_ok ⟨p, none, 0⟩ p.length slash hinit hlen
      simp only at h3
      obtain ⟨o1, h4, h5⟩ := cleanLoop_ok p true 1 1 o0 h2 (by omega) (by omega)
        (fun _ => Or.inr (Or.inr (by simp [h3])))
      simp only [hroot, decide_True, if_true, h1, h4]
      exact hfin o1 h5
    · obtain ⟨o1, h4, h5⟩ := cleanLoop_ok p false 0 0 ⟨p, none, 0⟩ hinit (by omega) (by simp)
        (fun _ => Or.inr (Or.inr (by simp)))
      simp only [hroot, decide_False, if_false, Bool.false_eq_true, h4]
      exact hfin o1 h5

end path

namespace path

theorem lastIndexBelow_bounds (s : GoString) (c : Nat) :
    ∀ k : Nat, -1 ≤ lastIndexBelow s c k ∧ lastIndexBelow s c k < k := by
  intro k
  induction k with
  | zero => simp [lastIndexBelow]
  | succ i ih =>
    unfold lastIndexBelow
    split
    · constructor <;> push_cast <;> omega
    · constructor
      · exact ih.1
      · have := ih.2
        push_cast
        omega

theorem Split_ok (p : GoString) :
    ∃ dir file, Split p = .ok (dir, file) ∧
      dir = p.take (LastIndexByteString p slash + 1).toNat ∧
      file = p.drop (LastIndexByteString p slash + 1).toNat := by
  have hb := lastIndexBelow_bounds p slash p.length
  have h1 : (LastIndexByteString p slash + 1).toNat ≤ p.length := by
    unfold LastIndexByteString
    omega
  exact ⟨_, _, by simp [Split, sliceTo, sliceFrom, h1], rfl, rfl⟩

/-- The function `Dir` returns on every input, and what it returns is not the empty
string. -/
theorem Dir_ok (p : GoString) : ∃ d, Dir p = .ok d ∧ d ≠ [] := by
  obtain ⟨dir, file, h1, _, _⟩ := Split_ok p
  obtain ⟨d, h2, h3⟩ := Clean_ok dir
  exact ⟨d, by simp [Dir, h1, h2], h3⟩

theorem stripSlashes_ok (p : GoString) :
    ∃ q, forLoop stripBody p.length p = .ok q ∧ q.length ≤ p.length := by
  refine forLoop_ok stripBody (fun q => q.length ≤ p.length) (fun q => q.length)
    (fun q => q.length ≤ p.length) ?_ p.length p (le_refl _) (le_refl _)
  intro q hq
  unfold stripBody
  by_cases h0 : q.length > 0
  · obtain ⟨c, hc, _⟩ := byteAt_of_lt q (q.length - 1) (by omega)
    by_cases hcs : c = slash
    · left
      refine ⟨q.take (q.length - 1), by simp [h0, hc, hcs, sliceTo], ?_, ?_⟩
      · simp [List.length_take]; omega
      · simp [List.length_take]; omega
    · right
      exact ⟨q, by simp [h0, hc, hcs], hq⟩
  · right
    exact ⟨q, by simp [h0], hq⟩

/-- The function `Base` returns on every input. -/
theorem Base_ok (p : GoString) : ∃ b, Base p = .ok b := by
  unfold Base
  by_cases hp : p = []
  · exact ⟨ascii ".", by simp [hp]⟩
  · obtain ⟨q, hq, _⟩ := stripSlashes_ok p
    simp only [hp, if_false, hq]
    have hb := lastIndexBelow_bounds q slash q.length
    have h1 : (LastIndexByteString q slash + 1).toNat ≤ q.length := by
      unfold LastIndexByteString
      omega
    by_cases hi : LastIndexByteString q slash ≥ 0
    · simp only [hi, if_true, sliceFrom, h1]
      by_cases he : List.drop (LastIndexByteString q slash + 1).toNat q = []
      · exact ⟨ascii "/", by simp [he]⟩
      · exact ⟨List.drop (LastIndexByteString q slash + 1).toNat q, by simp [he]⟩
    · simp only [hi, if_false]
      by_cases he : q = []
      · exact ⟨ascii "/", by simp [he]⟩
      · exact ⟨q, by simp [he]⟩

end path

theorem newLoggerForCall_ok (ctx : Context) (logger : Logger) (full : GoString) (w : World) :
    ∃ dir service method, path.Dir full = .ok dir ∧ dir ≠ [] ∧ sliceFrom dir 1 = .ok service ∧
      path.Base full = .ok method ∧
      newLoggerForCall ctx logger full w =
        (.ok (toContext ctx (logger.With [w.SystemField,
            zap.String (ascii "grpc.service") service,
            zap.String (ascii "grpc.method") method]) w).1,
         (toContext ctx (logger.With [w.SystemField,
            zap.String (ascii "grpc.service") service,
            zap.String (ascii "grpc.method") method]) w).2) := by
  obtain ⟨dir, h1, h2⟩ := path.Dir_ok full
  obtain ⟨method, h3⟩ := path.Base_ok full
  have h4 : 1 ≤ dir.length := List.length_pos.mpr h2
  refine ⟨dir, dir.drop 1, method, h1, h2, by simp [sliceFrom, h4], h3, ?_⟩
  simp [newLoggerForCall, h1, h3, sliceFrom, h4]

theorem forLoop_exit {σ ρ : Type} (body : σ → Except Fault (σ ⊕ ρ)) (fuel : Nat) (s : σ) (r : ρ)
    (h : body s = .ok (.inr r)) : forLoop body fuel s = .ok r := by
  cases fuel <;> simp [forLoop, h]

theorem forLoop_step {σ ρ : Type} (body : σ → Except Fault (σ ⊕ ρ)) (k : Nat) (s s1 : σ)
    (h : body s = .ok (.inl s1)) : forLoop body (k + 1) s = forLoop body k s1 := by
  simp [forLoop, h]

theorem getElem?_append_cons {α : Type} (pre : List α) (c : α) (rest : List α) :
    (pre ++ c :: rest)[pre.length]? = some c := by
  induction pre with
  | nil => simp
  | cons x xs ih => simpa using ih

namespace path

/-- Copying an element that the input already holds at the write position leaves the
buffer unallocated and moves both indices to the end of the element. -/
theorem copyLoop_lazy (p : GoString) :
    ∀ (S pre rest : GoString) (fuel : Nat), p = pre ++ S ++ rest → slash ∉ S →
      (rest = [] ∨ rest.head? = some slash) → S.length ≤ fuel →
      forLoop (copyBody p) fuel (pre.length, ⟨p, none, pre.length⟩) =
        .ok (pre.length + S.length, ⟨p, none, pre.length + S.length⟩) := by
  intro S
  induction S with
  | nil =>
    intro pre rest fuel hp _ hrest _
    apply forLoop_exit
    unfold copyBody
    simp only [List.length_nil, Nat.add_zero]
    by_cases hlt : pre.length < p.length
    · rcases hrest with h | h
      · subst h
        simp [hp] at hlt
      · have hb : byteAt p pre.length = .ok slash := by
          apply byteAt_of_getElem?
          cases rest with
          | nil => simp at h
          | cons x xs =>
            simp at h
            subst h
            rw [hp, List.append_nil]
            exact getElem?_append_cons pre slash xs
        simp [hlt, hb]
    · simp [hlt]
  | cons c S1 ih =>
    intro pre rest fuel hp hS hrest hfuel
    have hc : c ≠ slash := by
      intro h
      exact hS (by simp [h])
    have hS1 : slash ∉ S1 := by
      intro h
      exact hS (by simp [h])
    cases fuel with
    | zero => simp at hfuel
    | succ k =>
      have hlt : pre.length < p.length := by simp [hp]
      have hget : p[pre.length]? = some c := by
        rw [hp, List.append_assoc, List.cons_append]
        exact getElem?_append_cons pre c (S1 ++ rest)
      have hb : byteAt p pre.length = .ok c := byteAt_of_getElem? p _ c hget
      have hstep : copyBody p (pre.length, ⟨p, none, pre.length⟩) =
          .ok (.inl (pre.length + 1, ⟨p, none, pre.length + 1⟩)) := by
        unfold copyBody
        simp [hlt, hb, hc, lazybuf.append, hget]
      rw [forLoop_step _ _ _ _ hstep]
      have key := ih (pre ++ [c]) rest k (by simp [hp]) hS1 hrest (by simpa using hfuel)
      have e1 : (pre ++ [c]).length = pre.length + 1 := by simp
      have e2 : pre.length + 1 + S1.length = pre.length + (c :: S1).length := by
        simp only [List.length_cons]
        omega
      rw [e1, e2] at key
      exact key

/-- The result of `Clean` on `/S/`, for a non-empty element `S` other than `.` and `..`,
is `/S`. -/
theorem Clean_rooted_elem (S : GoString) (hne : S ≠ []) (hS : slash ∉ S)
    (hdot : S ≠ [dot]) (hdotdot : S ≠ [dot, dot]) :
    Clean (slash :: (S ++ [slash])) = .ok (slash :: S) := by
  obtain ⟨c, S1, rfl⟩ := List.exists_cons_of_ne_nil hne
  have hc : c ≠ slash := fun h => hS (by simp [h])
  have hS1 : slash ∉ S1 := fun h => hS (by simp [h])
  set p : GoString := slash :: (c :: S1 ++ [slash]) with hp
  have hlen : p.length = S1.length + 3 := by simp [hp]
  -- the element is neither `.` nor `..`
  have hd1 : isDotElem p 1 c = .ok false := by
    unfold isDotElem
    by_cases hcd : c = dot
    · cases S1 with
      | nil => exact absurd (by simp [hcd]) hdot
      | cons c1 S2 =>
        have hc1 : c1 ≠ slash := fun h => hS1 (by simp [h])
        simp [hcd, hp, byteAt, hc1]
    · simp [hcd]
  have hd2 : isDotDotElem p 1 c = .ok false := by
    unfold isDotDotElem
    by_cases hcd : c = dot
    · cases S1 with
      | nil => exact absurd (by simp [hcd]) hdot
      | cons c1 S2 =>
        have hc1 : c1 ≠ slash := fun h => hS1 (by simp [h])
        by_cases hc1d : c1 = dot
        · cases S2 with
          | nil => exact absurd (by simp [hcd, hc1d]) hdotdot
          | cons c2 S3 =>
            have hc2 : c2 ≠ slash := fun h => hS1 (by simp [h])
            simp [hcd, hc1d, hp, byteAt, hc2]
        · simp [hcd, hp, byteAt, hc1d]
    · simp [hcd]
  have hcopy : forLoop (copyBody p) (S1.length + 2) (1, ⟨p, none, 1⟩) =
      .ok (1 + (S1.length + 1), ⟨p, none, 1 + (S1.length + 1)⟩) :=
    copyLoop_lazy p (c :: S1) [slash] [slash] (S1.length + 2) (by simp [hp]) hS
      (Or.inr rfl) (by simp)
  have hb1 : byteAt p 1 = .ok c := by simp [hp, byteAt]
  have hstep1 : cleanBody p true (1, 1, ⟨p, none, 1⟩) =
      .ok (.inl (1 + (S1.length + 1), 1, ⟨p, none, 1 + (S1.length + 1)⟩)) := by
    unfold cleanBody
    simp [hlen, hb1, hc, hd1, hd2, elemStep, copyElem, hcopy]
  have hb2 : byteAt p (1 + (S1.length + 1)) = .ok slash := by
    apply byteAt_of_getElem?
    have : 1 + (S1.length + 1) = (slash :: c :: S1).length := by simp; omega
    rw [this]
    simp [hp]
  have hstep2 : cleanBody p true (1 + (S1.length + 1), 1, ⟨p, none, 1 + (S1.length + 1)⟩) =
      .ok (.inl (1 + (S1.length + 1) + 1, 1, ⟨p, none, 1 + (S1.length + 1)⟩)) := by
    unfold cleanBody
    have : 1 + (S1.length + 1) < p.length := by omega
    simp [this, hb2]
  have hstep3 : cleanBody p true (1 + (S1.length + 1) + 1, 1, ⟨p, none, 1 + (S1.length + 1)⟩) =
      .ok (.inr ⟨p, none, 1 + (S1.length + 1)⟩) := by
    unfold cleanBody
    have : ¬ (1 + (S1.length + 1) + 1 < p.length) := by omega
    simp [this]
  have hloop : forLoop (cleanBody p true) p.length (1, 1, ⟨p, none, 1⟩) =
      .ok ⟨p, none, 1 + (S1.length + 1)⟩ := by
    rw [hlen, forLoop_step _ _ _ _ hstep1, forLoop_step _ _ _ _ hstep2]
    exact forLoop_exit _ _ _ _ hstep3
  unfold Clean
  have hb0 : byteAt p 0 = .ok slash := by simp [hp, byteAt]
  have happ : (⟨p, none, 0⟩ : lazybuf).append slash = .ok ⟨p, none, 1⟩ := by
    simp [lazybuf.append, hp]
  have hpne : p ≠ [] := by simp [hp]
  simp only [hpne, if_false, hb0, decide_True, if_true, happ, hloop]
  have h0 : ¬ (1 + (S1.length + 1) = 0) := by omega
  have hle : 1 + (S1.length + 1) ≤ p.length := by omega
  simp only [h0, if_false, lazybuf.string, sliceTo, hle, if_true]
  congr 1
  have : 1 + (S1.length + 1) = (slash :: c :: S1).length := by simp; omega
  rw [this, hp]
  have h2 : slash :: (c :: S1 ++ [slash]) = (slash :: c :: S1) ++ [slash] := by simp
  rw [h2, List.take_left]

end path

namespace path

/-- The last slash of `a/M`, where `M` has no slash, is the one after `a`. -/
theorem LastIndexByteString_append (a M : GoString) (hM : slash ∉ M) :
    LastIndexByteString (a ++ slash :: M) slash = (a.length : Int) := by
  have key : ∀ k, k ≤ M.length →
      lastIndexBelow (a ++ slash :: M) slash (a.length + 1 + k) = (a.length : Int) := by
    intro k
    induction k with
    | zero =>
      intro _
      simp only [Nat.add_zero, lastIndexBelow, getElem?_append_cons, if_true]
    | succ k ih =>
      intro hk
      have hlt : k < M.length := by omega
      have hget : (a ++ slash :: M)[a.length + 1 + k]? = some M[k] := by
        rw [List.getElem?_append_right (by omega)]
        have : a.length + 1 + k - a.length = k + 1 := by omega
        rw [this]
        simp [List.getElem?_eq_getElem hlt]
      have hne : M[k] ≠ slash := by
        intro h
        exact hM (h ▸ List.getElem_mem hlt)
      have e : a.length + 1 + (k + 1) = (a.length + 1 + k) + 1 := by omega
      rw [e, lastIndexBelow, hget]
      simp only [Option.some.injEq, hne, if_false]
      exact ih (by omega)
  unfold LastIndexByteString
  have e : (a ++ slash :: M).length = a.length + 1 + M.length := by
    simp only [List.length_append, List.length_cons]
    omega
  rw [e]
  exact key M.length (le_refl _)

/-- The result of `Dir` on `/S/M` is `/S`, for `S` a non-empty element other than `.`
and `..` and `M` without a slash. -/
theorem Dir_service_method (S M : GoString) (hne : S ≠ []) (hS : slash ∉ S)
    (hdot : S ≠ [dot]) (hdotdot : S ≠ [dot, dot]) (hM : slash ∉ M) :
    Dir (slash :: (S ++ slash :: M)) = .ok (slash :: S) := by
  have hi := LastIndexByteString_append (slash :: S) M hM
  have e : slash :: (S ++ slash :: M) = (slash :: S) ++ slash :: M := by simp
  obtain ⟨dir, file, h1, h2, _⟩ := Split_ok (slash :: (S ++ slash :: M))
  rw [e, hi] at h2
  have e2 : ((slash :: S).length + 1 : Int).toNat = ((slash :: S) ++ [slash]).length := by
    simp only [List.length_append, List.length_cons, List.length_nil]
    omega
  have e3 : (slash :: S) ++ slash :: M = ((slash :: S) ++ [slash]) ++ M := by simp
  rw [e2, e3, List.take_left] at h2
  unfold Dir
  rw [h1, h2]
  simpa using Clean_rooted_elem S hne hS hdot hdotdot

/-- The result of `Base` on `a/M` is `M`, for `M` non-empty and without a slash. -/
theorem Base_last_elem (a M : GoString) (hne : M ≠ []) (hM : slash ∉ M) :
    Base (a ++ slash :: M) = .ok M := by
  have hp : a ++ slash :: M ≠ [] := by simp
  have hlast : byteAt (a ++ slash :: M) ((a ++ slash :: M).length - 1) =
      .ok (M.getLast hne) := by
    apply byteAt_of_getElem?
    have e1 : a ++ slash :: M = (a ++ slash :: M.dropLast) ++ [M.getLast hne] := by
      simp [List.dropLast_append_getLast hne]
    have e2 : (a ++ slash :: M).length - 1 = (a ++ slash :: M.dropLast).length := by
      simp only [List.length_append, List.length_cons, List.length_dropLast]
      have : 0 < M.length := List.length_pos.mpr hne
      omega
    rw [e2]
    conv_lhs => rw [e1]
    exact getElem?_append_cons _ _ _
  have hlne : M.getLast hne ≠ slash := fun h => hM (h ▸ List.getLast_mem hne)
  have hstrip : forLoop stripBody (a ++ slash :: M).length (a ++ slash :: M) =
      .ok (a ++ slash :: M) := by
    apply forLoop_exit
    unfold stripBody
    have : (a ++ slash :: M).length > 0 := by simp
    simp only [this, if_true, hlast, hlne, if_false]
  have hi := LastIndexByteString_append a M hM
  unfold Base
  simp only [hp, if_false, hstrip, hi]
  have h0 : (a.length : Int) ≥ 0 := by omega
  have hl : ((a.length : Int) + 1).toNat ≤ (a ++ slash :: M).length := by
    simp only [List.length_append, List.length_cons]
    omega
  have e : ((a.length : Int) + 1).toNat = (a ++ [slash]).length := by
    simp only [List.length_append, List.length_cons, List.length_nil]
    omega
  have hd : List.drop ((a.length : Int) + 1).toNat (a ++ slash :: M) = M := by
    have e3 : a ++ slash :: M = (a ++ [slash]) ++ M := by simp
    rw [e, e3, List.drop_left]
  simp only [h0, if_true, sliceFrom, hl, hd, hne, if_false]

end path

/-- On `/S/M` the call-scoped logger gets `grpc.service = S` and `grpc.method = M`. -/
theorem newLoggerForCall_service_method (ctx : Context) (logger : Logger) (w : World)
    (S M : GoString) (hS : S ≠ []) (hS1 : slash ∉ S) (hdot : S ≠ [dot])
    (hdotdot : S ≠ [dot, dot]) (hM : M ≠ []) (hM1 : slash ∉ M) :
    path.Dir (slash :: (S ++ slash :: M)) = .ok (slash :: S) ∧
    path.Base (slash :: (S ++ slash :: M)) = .ok M ∧
    newLoggerForCall ctx logger (slash :: (S ++ slash :: M)) w =
      (.ok (toContext ctx (logger.With [w.SystemField,
          zap.String (ascii "grpc.service") S, zap.String (ascii "grpc.method") M]) w).1,
       (toContext ctx (logger.With [w.SystemField,
          zap.String (ascii "grpc.service") S, zap.String (ascii "grpc.method") M]) w).2) := by
  have h1 := path.Dir_service_method S M hS hS1 hdot hdotdot hM1
  have h2 : path.Base (slash :: (S ++ slash :: M)) = .ok M := by
    have := path.Base_last_elem (slash :: S) M hM hM1
    simpa using this
  refine ⟨h1, h2, ?_⟩
  simp [newLoggerForCall, h1, h2, sliceFrom]

/-! ## The logger -/

theorem foldl_AddCore_some (ent : Entry) (ws : List Writer) :
    ∀ c : CheckedEntry,
      ws.foldl (fun acc wr => some (AddCore acc ent wr)) (some c) =
        some { c with cores := c.cores ++ ws } := by
  induction ws with
  | nil => intro c; simp
  | cons wr rest ih =>
    intro c
    rw [List.foldl_cons, ih]
    simp [AddCore]

theorem foldl_AddCore_none (ent : Entry) (wr : Writer) (rest : List Writer) :
    (wr :: rest).foldl (fun acc wr => some (AddCore acc ent wr)) none =
      some { Entry := ent, should := .WriteThenNoop, cores := wr :: rest } := by
  rw [List.foldl_cons, foldl_AddCore_some]
  simp [AddCore]

/-- The state after `Check` is the state after the `Check` of the core, and a `Write`
of the checked entry lets every core that `Check` added write the entry once. -/
theorem Write_Check_world (log : Logger) (lvl : Level) (msg : GoString) (fields : List Field)
    (o o1 : Output) :
    (log.Check lvl msg o).2 = (accepted log { Level := lvl, Message := msg } o).2 ∧
    (zapcore.Write (log.Check lvl msg o).1 fields o1).2 =
      writeAll (accepted log { Level := lvl, Message := msg } o).1
        { Level := lvl, Message := msg } fields o1 := by
  have h45 : PanicLevel ≠ FatalLevel := by decide
  have h54 : FatalLevel ≠ PanicLevel := by decide
  have h34 : DPanicLevel ≠ PanicLevel := by decide
  have h35 : DPanicLevel ≠ FatalLevel := by decide
  obtain ⟨core, dev⟩ := log
  simp only [Logger.Check, Core.Check, accepted, writeAll]
  generalize core.onCheck core.state { Level := lvl, Message := msg } o = r
  obtain ⟨ws, o2⟩ := r
  simp only
  cases ws with
  | nil =>
    simp only [List.foldl_nil]
    by_cases h4 : lvl = PanicLevel
    · subst h4
      simp [zapcore.Write, Should]
    · by_cases h5 : lvl = FatalLevel
      · subst h5
        simp [zapcore.Write, Should, h54]
      · by_cases h3 : lvl = DPanicLevel
        · subst h3
          cases dev <;> simp [zapcore.Write, Should, h34, h35]
        · simp [zapcore.Write, h3, h4, h5]
  | cons wr rest =>
    rw [foldl_AddCore_none]
    by_cases h4 : lvl = PanicLevel
    · subst h4
      simp [zapcore.Write, Should]
    · by_cases h5 : lvl = FatalLevel
      · subst h5
        simp [zapcore.Write, Should, h54]
      · by_cases h3 : lvl = DPanicLevel
        · subst h3
          cases dev <;> simp [zapcore.Write, Should, h34, h35]
        · simp [zapcore.Write, h3, h4, h5]

/-- A `Write` after `Check` returns exactly when the level has no terminal action. -/
theorem Write_Check_result (log : Logger) (lvl : Level) (msg : GoString) (fields : List Field)
    (o o1 : Output) :
    (zapcore.Write (log.Check lvl msg o).1 fields o1).1 =
      if stopsAfterWrite log lvl = true then
        (if lvl = FatalLevel then .error .zapFatal else .error (.zapPanic msg))
      else .ok () := by
  have h45 : PanicLevel ≠ FatalLevel := by decide
  have h54 : FatalLevel ≠ PanicLevel := by decide
  have h34 : DPanicLevel ≠ PanicLevel := by decide
  have h35 : DPanicLevel ≠ FatalLevel := by decide
  obtain ⟨core, dev⟩ := log
  simp only [Logger.Check, Core.Check, stopsAfterWrite]
  generalize core.onCheck core.state { Level := lvl, Message := msg } o = r
  obtain ⟨ws, o2⟩ := r
  simp only
  cases ws with
  | nil =>
    simp only [List.foldl_nil]
    by_cases h4 : lvl = PanicLevel
    · subst h4
      simp [zapcore.Write, Should, h45]
    · by_cases h5 : lvl = FatalLevel
      · subst h5
        simp [zapcore.Write, Should, h54]
      · by_cases h3 : lvl = DPanicLevel
        · subst h3
          cases dev <;> simp [zapcore.Write, Should, h34, h35]
        · simp [zapcore.Write, h3, h4, h5]
  | cons wr rest =>
    rw [foldl_AddCore_none]
    by_cases h4 : lvl = PanicLevel
    · subst h4
      simp [zapcore.Write, Should, h45]
    · by_cases h5 : lvl = FatalLevel
      · subst h5
        simp [zapcore.Write, Should, h54]
      · by_cases h3 : lvl = DPanicLevel
        · subst h3
          cases dev <;> simp [zapcore.Write, Should, h34, h35]
        · simp [zapcore.Write, h3, h4, h5]

/-! ## The interceptors, step by step -/

/-- The unary interceptor, given the value of each of its steps. -/
theorem UnaryServerInterceptor_run (logger : Logger) (o : options) (ctx : Context) (req : Any)
    (info : grpc.UnaryServerInfo) (handler : grpc.UnaryHandler) (w : World)
    (newCtx : Context) (w1 : World) (resp : Any) (err : GoError) (w2 : World)
    (code : codes.Code) (w3 : World) (level : Level) (w4 : World)
    (ws : List Writer) (o5 : Output)
    (h : newLoggerForCall ctx logger info.FullMethod w = (.ok newCtx, w1))
    (hh : handler newCtx req w1 = ((resp, err), w2))
    (hc : o.codeFunc err w2 = (code, w3))
    (hl : o.levelFunc code w3 = (level, w4))
    (hk : accepted (Extract newCtx w4) { Level := level, Message := unaryMsg } w4.toOutput =
      (ws, o5)) :
    UnaryServerInterceptor logger o ctx req info handler w =
      (afterWrite (Extract newCtx w4) level unaryMsg (resp, err),
       w4.withOutput (writeAll ws { Level := level, Message := unaryMsg }
         (completionFields err code (timeDiffToMilliseconds w1.now (w4.withOutput o5))) o5)) := by
  unfold UnaryServerInterceptor
  rw [h]
  simp only [hh, hc, hl]
  have hw := Write_Check_world (Extract newCtx w4) level unaryMsg
  have hr := Write_Check_result (Extract newCtx w4) level unaryMsg
  unfold unaryMsg at hw hr hk
  rcases hq : (Extract newCtx w4).Check level (ascii "finished unary call") w4.toOutput
    with ⟨ce, o5a⟩
  have h5 : o5a = o5 := by
    have := (hw [] w4.toOutput w4.toOutput).1
    rw [hq, hk] at this
    exact this
  subst h5
  simp only
  have hw2 := (hw (completionFields err code (timeDiffToMilliseconds w1.now (w4.withOutput o5a)))
    w4.toOutput o5a).2
  have hr2 := hr (completionFields err code (timeDiffToMilliseconds w1.now (w4.withOutput o5a)))
    w4.toOutput o5a
  rw [hq, hk] at hw2
  rw [hq] at hr2
  simp only [completionFields, World.withOutput] at hw2 hr2
  rcases hz : zapcore.Write ce
    [zap.Error err, zap.String (ascii "grpc.code") (codes.String code),
      zap.Float32 (ascii "grpc.time_ms")
        (timeDiffToMilliseconds w1.now { w4 with toOutput := o5a })] o5a with ⟨res, o6⟩
  rw [hz] at hw2 hr2
  simp only at hw2 hr2
  subst hw2
  unfold afterWrite unaryMsg completionFields World.withOutput
  by_cases hs : stopsAfterWrite (Extract newCtx w4) level = true
  · simp only [hs, if_true] at hr2 ⊢
    subst hr2
    split_ifs <;> rfl
  · simp only [hs, if_false] at hr2 ⊢
    subst hr2
    rfl

/-- The streaming interceptor, given the value of each of its steps. -/
theorem StreamServerInterceptor_run (logger : Logger) (o : options) (srv : Any)
    (stream : grpc.ServerStream) (info : grpc.StreamServerInfo) (handler : grpc.StreamHandler)
    (w : World) (newCtx : Context) (w1 : World) (err : GoError) (w2 : World)
    (code : codes.Code) (w3 : World) (level : Level) (w4 : World)
    (ws : List Writer) (o5 : Output)
    (h : newLoggerForCall stream.Context logger info.FullMethod w = (.ok newCtx, w1))
    (hh : handler srv (wrappedFor stream newCtx) w1 = (err, w2))
    (hc : o.codeFunc err w2 = (code, w3))
    (hl : o.levelFunc code w3 = (level, w4))
    (hk : accepted (Extract newCtx w4) { Level := level, Message := streamMsg } w4.toOutput =
      (ws, o5)) :
    StreamServerInterceptor logger o srv stream info handler w =
      (afterWrite (Extract newCtx w4) level streamMsg err,
       w4.withOutput (writeAll ws { Level := level, Message := streamMsg }
         (completionFields err code (timeDiffToMilliseconds w1.now (w4.withOutput o5))) o5)) := by
  unfold StreamServerInterceptor
  rw [h]
  unfold wrappedFor at hh
  simp only [hh, hc, hl]
  have hw := Write_Check_world (Extract newCtx w4) level streamMsg
  have hr := Write_Check_result (Extract newCtx w4) level streamMsg
  unfold streamMsg at hw hr hk
  rcases hq : (Extract newCtx w4).Check level (ascii "finished streaming call") w4.toOutput
    with ⟨ce, o5a⟩
  have h5 : o5a = o5 := by
    have := (hw [] w4.toOutput w4.toOutput).1
    rw [hq, hk] at this
    exact this
  subst h5
  simp only
  have hw2 := (hw (completionFields err code (timeDiffToMilliseconds w1.now (w4.withOutput o5a)))
    w4.toOutput o5a).2
  have hr2 := hr (completionFields err code (timeDiffToMilliseconds w1.now (w4.withOutput o5a)))
    w4.toOutput o5a
  rw [hq, hk] at hw2
  rw [hq] at hr2
  simp only [completionFields, World.withOutput] at hw2 hr2
  rcases hz : zapcore.Write ce
    [zap.Error err, zap.String (ascii "grpc.code") (codes.String code),
      zap.Float32 (ascii "grpc.time_ms")
        (timeDiffToMilliseconds w1.now { w4 with toOutput := o5a })] o5a with ⟨res, o6⟩
  rw [hz] at hw2 hr2
  simp only at hw2 hr2
  subst hw2
  unfold afterWrite streamMsg completionFields World.withOutput
  by_cases hs : stopsAfterWrite (Extract newCtx w4) level = true
  · simp only [hs, if_true] at hr2 ⊢
    subst hr2
    split_ifs <;> rfl
  · simp only [hs, if_false] at hr2 ⊢
    subst hr2
    rfl

/-! ## The logger carrier -/

/-- On the context made by `toContext`, `Extract` yields the attached logger. -/
theorem Extract_toContext (ctx : Context) (logger : Logger) (w : World) :
    Extract (toContext ctx logger w).1 (toContext ctx logger w).2 = logger := by
  simp [Extract, toContext, Context.Value]

/-- After `AddFields` on the context made by `toContext`, `Extract` yields the derived
logger. -/
theorem Extract_AddFields (ctx : Context) (logger : Logger) (fields : List Field) (w : World) :
    Extract (toContext ctx logger w).1
      (AddFields (toContext ctx logger w).1 fields (toContext ctx logger w).2) =
      logger.With fields := by
  simp [Extract, AddFields, toContext, Context.Value]

/-! ## The standard cores -/

/-- The core of `zapcore.NewCore` adds itself in `Check` exactly when it enables the
level, and changes nothing. -/
theorem accepted_ioCore (log : Logger) (enab : Level → Bool) (enc : List Field)
    (hcore : log.core = ioCore enab enc) (ent : Entry) (o : Output) :
    accepted log ent o = (if enab ent.Level then [ioWrite enc] else [], o) := by
  unfold accepted
  rw [hcore]
  rfl

/-- The no-op core adds nothing in `Check` and changes nothing. -/
theorem accepted_nopCore (log : Logger) (hcore : log.core = nopCore) (ent : Entry)
    (o : Output) : accepted log ent o = ([], o) := by
  unfold accepted
  rw [hcore]
  rfl

/-- With the fields added, the core of `zapcore.NewCore` is the core with the fields
appended to those of its encoder. -/
theorem Logger_With_ioCore (log : Logger) (enab : Level → Bool) (enc : List Field)
    (hcore : log.core = ioCore enab enc) (fields : List Field) :
    (log.With fields).core = ioCore enab (enc ++ fields) := by
  unfold Logger.With
  by_cases hf : fields = []
  · simp [hf, hcore]
  · simp only [hf, if_false]
    rw [hcore]
    rfl

/-- Replacing the state of the cores by itself changes nothing. -/
theorem World.withOutput_toOutput (w : World) : w.withOutput w.toOutput = w := rfl

/-- The state after the cores accepted by the core of `zapcore.NewCore` have written:
one record more if the level is enabled. -/
theorem withOutput_writeAll_ioCore (w4 : World) (enab : Level → Bool) (enc : List Field)
    (lvl : Level) (msg : GoString) (fields : List Field) :
    w4.withOutput (writeAll (if enab lvl then [ioWrite enc] else [])
        { Level := lvl, Message := msg } fields w4.toOutput) =
      { w4 with
        journal := w4.journal ++
          if enab lvl then
            [{ Level := lvl, Message := msg, Context := enc, Fields := fields }]
          else [] } := by
  cases enab lvl <;> simp [World.withOutput, writeAll, ioWrite]

/-! ## Elapsed time -/

/-- For an elapsed duration `d` in the range of `int64` and not negative,
`timeDiffToMilliseconds` is the number of whole milliseconds in `d`. -/
theorem timeDiffToMilliseconds_floor (then_ d : Int) (w : World) (h0 : 0 ≤ d)
    (h1 : d ≤ maxInt64) (hnow : w.now = then_ + d) :
    timeDiffToMilliseconds then_ w = d / 1000000 := by
  have hmin : minInt64 ≤ 0 := by decide
  have hsub : time.Sub w.now then_ = d := by
    unfold time.Sub
    rw [hnow]
    have e : then_ + d - then_ = d := by omega
    rw [e]
    have h2 : ¬ d < minInt64 := by omega
    have h3 : ¬ d > maxInt64 := by omega
    simp [h2, h3]
  unfold timeDiffToMilliseconds time.Nanoseconds
  rw [hsub, Int.tdiv_eq_ediv h0 (by decide),
    Int.tdiv_eq_ediv (Int.ediv_nonneg h0 (by decide)) (by decide)]
  omega

/-! ## Claims -/

/-- The steps of a unary call all return: `newLoggerForCall`, the handler, `codeFunc`,
`levelFunc` and the `Check` of the core of the logger extracted afterwards. -/
theorem unary_steps (logger : Logger) (o : options) (ctx : Context) (req : Any)
    (full : GoString) (handler : grpc.UnaryHandler) (w : World) :
    ∃ newCtx w1 resp err w2 code w3 level w4 ws o5,
      newLoggerForCall ctx logger full w = (.ok newCtx, w1) ∧
      handler newCtx req w1 = ((resp, err), w2) ∧
      o.codeFunc err w2 = (code, w3) ∧ o.levelFunc code w3 = (level, w4) ∧
      accepted (Extract newCtx w4) { Level := level, Message := unaryMsg } w4.toOutput =
        (ws, o5) := by
  obtain ⟨_, _, _, _, _, _, _, h⟩ := newLoggerForCall_ok ctx logger full w
  rcases hh : handler _ req _ with ⟨⟨resp, err⟩, w2⟩
  rcases hc : o.codeFunc err w2 with ⟨code, w3⟩
  rcases hl : o.levelFunc code w3 with ⟨level, w4⟩
  rcases hk : accepted (Extract _ w4) { Level := level, Message := unaryMsg } w4.toOutput
    with ⟨ws, o5⟩
  exact ⟨_, _, resp, err, w2, code, w3, level, w4, ws, o5, h, hh, hc, hl, hk⟩

/-- The steps of a streaming call all return. -/
theorem stream_steps (logger : Logger) (o : options) (srv : Any) (stream : grpc.ServerStream)
    (full : GoString) (handler : grpc.StreamHandler) (w : World) :
    ∃ newCtx w1 err w2 code w3 level w4 ws o5,
      newLoggerForCall stream.Context logger full w = (.ok newCtx, w1) ∧
      handler srv (wrappedFor stream newCtx) w1 = (err, w2) ∧
      o.codeFunc err w2 = (code, w3) ∧ o.levelFunc code w3 = (level, w4) ∧
      accepted (Extract newCtx w4) { Level := level, Message := streamMsg } w4.toOutput =
        (ws, o5) := by
  obtain ⟨_, _, _, _, _, _, _, h⟩ := newLoggerForCall_ok stream.Context logger full w
  rcases hh : handler srv (wrappedFor stream _) _ with ⟨err, w2⟩
  rcases hc : o.codeFunc err w2 with ⟨code, w3⟩
  rcases hl : o.levelFunc code w3 with ⟨level, w4⟩
  rcases hk : accepted (Extract _ w4) { Level := level, Message := streamMsg } w4.toOutput
    with ⟨ws, o5⟩
  exact ⟨_, _, err, w2, code, w3, level, w4, ws, o5, h, hh, hc, hl, hk⟩

/-- C10. Parsing never fails: for every full method string, `path.Dir` returns a
non-empty string, so the slice `[1:]` is in bounds, and `newLoggerForCall` returns a
context. -/
theorem parsing_never_fails (ctx : Context) (logger : Logger) (full : GoString) (w : World) :
    (∃ dir service, path.Dir full = .ok dir ∧ dir ≠ [] ∧ sliceFrom dir 1 = .ok service) ∧
    (∃ method, path.Base full = .ok method) ∧
    (∃ newCtx w1, newLoggerForCall ctx logger full w = (.ok newCtx, w1)) := by
  obtain ⟨dir, service, method, h1, h2, h3, h4, h5⟩ := newLoggerForCall_ok ctx logger full w
  exact ⟨⟨dir, service, h1, h2, h3⟩, ⟨method, h4⟩, ⟨_, _, h5⟩⟩

/-- C2, as amended. Method-name parsing: for every full method string `/S/M` with `S`
and `M` non-empty and without a slash, and `S` neither `.` nor `..`,
`newLoggerForCall` computes the service `S` (`path.Dir` of the string is `/S`) and the
method `M` (`path.Base` of the string), and attaches the logger with these fields. -/
theorem service_method_parsed (ctx : Context) (logger : Logger) (w : World)
    (S M : GoString) (hS : S ≠ []) (hS1 : slash ∉ S) (hdot : S ≠ ascii ".")
    (hdotdot : S ≠ ascii "..") (hM : M ≠ []) (hM1 : slash ∉ M) :
    path.Dir (ascii "/" ++ S ++ ascii "/" ++ M) = .ok (ascii "/" ++ S) ∧
    sliceFrom (ascii "/" ++ S) 1 = .ok S ∧
    path.Base (ascii "/" ++ S ++ ascii "/" ++ M) = .ok M ∧
    newLoggerForCall ctx logger (ascii "/" ++ S ++ ascii "/" ++ M) w =
      (.ok (toContext ctx (logger.With [w.SystemField,
          zap.String (ascii "grpc.service") S, zap.String (ascii "grpc.method") M]) w).1,
       (toContext ctx (logger.With [w.SystemField,
          zap.String (ascii "grpc.service") S, zap.String (ascii "grpc.method") M]) w).2) := by
  have e : ascii "/" ++ S ++ ascii "/" ++ M = slash :: (S ++ slash :: M) := by
    simp [ascii, slash]
  have e1 : ascii "/" ++ S = slash :: S := by simp [ascii, slash]
  obtain ⟨h1, h2, h3⟩ := newLoggerForCall_service_method ctx logger w S M hS hS1
    (by simpa [ascii, dot] using hdot) (by simpa [ascii, dot] using hdotdot) hM hM1
  rw [e, e1]
  exact ⟨h1, by simp [sliceFrom], h2, h3⟩

/-- C2, witness: `/pkg.Service/Method` gives the service `pkg.Service` and the method
`Method`. -/
theorem service_method_parsed_witness :
    path.Dir (ascii "/" ++ ascii "pkg.Service" ++ ascii "/" ++ ascii "Method") =
      .ok (ascii "/" ++ ascii "pkg.Service") ∧
    sliceFrom (ascii "/" ++ ascii "pkg.Service") 1 = .ok (ascii "pkg.Service") ∧
    path.Base (ascii "/" ++ ascii "pkg.Service" ++ ascii "/" ++ ascii "Method") =
      .ok (ascii "Method") ∧
    newLoggerForCall (.root 0) infoLogger
        (ascii "/" ++ ascii "pkg.Service" ++ ascii "/" ++ ascii "Method") exampleWorld =
      (.ok (toContext (.root 0) (infoLogger.With [exampleWorld.SystemField,
          zap.String (ascii "grpc.service") (ascii "pkg.Service"),
          zap.String (ascii "grpc.method") (ascii "Method")]) exampleWorld).1,
       (toContext (.root 0) (infoLogger.With [exampleWorld.SystemField,
          zap.String (ascii "grpc.service") (ascii "pkg.Service"),
          zap.String (ascii "grpc.method") (ascii "Method")]) exampleWorld).2) :=
  service_method_parsed (.root 0) infoLogger exampleWorld (ascii "pkg.Service") (ascii "Method")
    (by decide) (by decide) (by decide) (by decide) (by decide) (by decide)

/-- C2, counterexample: on `/./Method`, where the service part `S` is `.`, `path.Dir`
is `/` and the computed service is the empty string, not `S`. -/
theorem dot_service_not_parsed :
    path.Dir (ascii "/" ++ ascii "." ++ ascii "/" ++ ascii "Method") = .ok (ascii "/") ∧
    (newLoggerForCall (.root 0) infoLogger
        (ascii "/" ++ ascii "." ++ ascii "/" ++ ascii "Method") exampleWorld).2.holders.map
      (fun l => l.core) =
      [ioCore (fun l => decide (InfoLevel ≤ l))
        [defaultSystemField, zap.String (ascii "grpc.service") (ascii ""),
          zap.String (ascii "grpc.method") (ascii "Method")]] ∧
    ascii "" ≠ ascii "." :=
  ⟨by decide, rfl, by decide⟩

/-- C6. Call-scoped logger: the context returned by `newLoggerForCall` is `ctx` extended
with a holder in which `Extract` finds the base logger extended with exactly the fields
`SystemField`, `grpc.service` (the parsed service) and `grpc.method` (the parsed method),
in this order; the base logger and the rest of the state are unchanged. The unary
interceptor applies its handler to this context and the unchanged request in this
state: the pair it returns and the state it leaves are those computed from the result
of the handler on these arguments. -/
theorem call_scoped_logger (ctx : Context) (logger : Logger) (full : GoString) (w : World) :
    ∃ dir service method newCtx w1,
      path.Dir full = .ok dir ∧ sliceFrom dir 1 = .ok service ∧ path.Base full = .ok method ∧
      newLoggerForCall ctx logger full w = (.ok newCtx, w1) ∧
      newCtx = .WithValue ctx .ctxMarkerKey (.holder w.holders.length) ∧
      Extract newCtx w1 = logger.With [w.SystemField,
        zap.String (ascii "grpc.service") service, zap.String (ascii "grpc.method") method] ∧
      (Extract newCtx w1).core = logger.core.With [w.SystemField,
        zap.String (ascii "grpc.service") service, zap.String (ascii "grpc.method") method] ∧
      (Extract newCtx w1).development = logger.development ∧
      w1 = { w with holders := w.holders ++ [Extract newCtx w1] } ∧
      defaultSystemField = .string (ascii "system") (ascii "grpc") ∧
      (∀ (o : options) (req server : Any) (handler : grpc.UnaryHandler),
        ∃ resp err w2 code w3 level w4 ws o5,
          handler newCtx req w1 = ((resp, err), w2) ∧
          o.codeFunc err w2 = (code, w3) ∧ o.levelFunc code w3 = (level, w4) ∧
          accepted (Extract newCtx w4) { Level := level, Message := unaryMsg } w4.toOutput =
            (ws, o5) ∧
          UnaryServerInterceptor logger o ctx req { Server := server, FullMethod := full }
              handler w =
            (afterWrite (Extract newCtx w4) level unaryMsg (resp, err),
             w4.withOutput (writeAll ws { Level := level, Message := unaryMsg }
               (completionFields err code (timeDiffToMilliseconds w1.now (w4.withOutput o5)))
               o5))) := by
  obtain ⟨dir, service, method, h1, _, h3, h4, h5⟩ := newLoggerForCall_ok ctx logger full w
  have hE := Extract_toContext ctx (logger.With [w.SystemField,
    zap.String (ascii "grpc.service") service, zap.String (ascii "grpc.method") method]) w
  refine ⟨dir, service, method,
    (toContext ctx (logger.With [w.SystemField,
      zap.String (ascii "grpc.service") service, zap.String (ascii "grpc.method") method]) w).1,
    (toContext ctx (logger.With [w.SystemField,
      zap.String (ascii "grpc.service") service, zap.String (ascii "grpc.method") method]) w).2,
    h1, h3, h4, h5, rfl, hE, ?_, ?_, ?_, rfl, ?_⟩
  · rw [hE]
    simp [Logger.With]
  · rw [hE]
    simp [Logger.With]
  · rw [hE]
    rfl
  · intro o req server handler
    rcases hh : handler _ req _ with ⟨⟨resp, err⟩, w2⟩
    rcases hc : o.codeFunc err w2 with ⟨code, w3⟩
    rcases hl : o.levelFunc code w3 with ⟨level, w4⟩
    rcases hk : accepted (Extract _ w4) { Level := level, Message := unaryMsg } w4.toOutput
      with ⟨ws, o5⟩
    exact ⟨resp, err, w2, code, w3, level, w4, ws, o5, rfl, hc, hl, hk,
      UnaryServerInterceptor_run logger o ctx req { Server := server, FullMethod := full }
        handler w _ _ _ _ _ _ _ _ _ _ _ h5 hh hc hl hk⟩

/-- The steps of the unary call of `echoHandler` on `infoLogger` with `examplePolicy`
are determined by their equations. -/
theorem echo_steps_pinned (newCtx : Context) (w1 : World) (resp : Any) (err : GoError)
    (w2 : World) (code : codes.Code) (w3 : World) (level : Level) (w4 : World)
    (h : newLoggerForCall (.root 0) infoLogger exampleInfo.FullMethod exampleWorld =
      (.ok newCtx, w1))
    (hh : echoHandler newCtx (.int 7) w1 = ((resp, err), w2))
    (hc : examplePolicy.codeFunc err w2 = (code, w3))
    (hl : examplePolicy.levelFunc code w3 = (level, w4)) :
    resp = .int 7 ∧ err = none ∧ code = codes.OK ∧ level = InfoLevel ∧
    (Extract newCtx w4).core = ioCore (fun l => decide (InfoLevel ≤ l))
      [defaultSystemField, zap.String (ascii "grpc.service") (ascii "pkg.Service"),
        zap.String (ascii "grpc.method") (ascii "Method")] ∧
    w4.journal = [] ∧ timeDiffToMilliseconds w1.now w4 = 1 := by
  have e1 : newLoggerForCall (.root 0) infoLogger exampleInfo.FullMethod exampleWorld =
      (.ok (.WithValue (.root 0) .ctxMarkerKey (.holder 0)),
       (newLoggerForCall (.root 0) infoLogger exampleInfo.FullMethod exampleWorld).2) := rfl
  rw [e1] at h
  injection h with ha hb
  injection ha with ha
  subst ha hb
  injection hh with hx hy
  injection hx with hx1 hx2
  subst hx1 hx2 hy
  injection hc with hc1 hc2
  subst hc1 hc2
  injection hl with hl1 hl2
  subst hl1 hl2
  exact ⟨rfl, rfl, rfl, rfl, rfl, rfl, by decide⟩

/-- C1, as amended. Result transparency: for every base logger, policy, request and
handler, the unary interceptor returns exactly the pair `(resp, err)` that the handler
returned and the streaming interceptor exactly the handler's error, unless the level
computed for the call is one at which the logger stops the program after writing (the
panic level, the fatal level, or the development-panic level on a development logger);
at such a level the interceptor panics or exits and returns nothing. -/
theorem handler_result_returned (logger : Logger) (o : options) (ctx : Context) (req srv : Any)
    (info : grpc.UnaryServerInfo) (handler : grpc.UnaryHandler) (stream : grpc.ServerStream)
    (sinfo : grpc.StreamServerInfo) (shandler : grpc.StreamHandler) (w : World) :
    (∃ newCtx w1 resp err w2 code w3 level w4,
      newLoggerForCall ctx logger info.FullMethod w = (.ok newCtx, w1) ∧
      handler newCtx req w1 = ((resp, err), w2) ∧
      o.codeFunc err w2 = (code, w3) ∧ o.levelFunc code w3 = (level, w4) ∧
      (UnaryServerInterceptor logger o ctx req info handler w).1 =
        if stopsAfterWrite (Extract newCtx w4) level = true then
          (if level = FatalLevel then .error .zapFatal else .error (.zapPanic unaryMsg))
        else .ok (resp, err)) ∧
    (∃ newCtx w1 err w2 code w3 level w4,
      newLoggerForCall stream.Context logger sinfo.FullMethod w = (.ok newCtx, w1) ∧
      shandler srv (wrappedFor stream newCtx) w1 = (err, w2) ∧
      o.codeFunc err w2 = (code, w3) ∧ o.levelFunc code w3 = (level, w4) ∧
      (StreamServerInterceptor logger o srv stream sinfo shandler w).1 =
        if stopsAfterWrite (Extract newCtx w4) level = true then
          (if level = FatalLevel then .error .zapFatal else .error (.zapPanic streamMsg))
        else .ok err) := by
  constructor
  · obtain ⟨newCtx, w1, resp, err, w2, code, w3, level, w4, ws, o5, h, hh, hc, hl, hk⟩ :=
      unary_steps logger o ctx req info.FullMethod handler w
    refine ⟨newCtx, w1, resp, err, w2, code, w3, level, w4, h, hh, hc, hl, ?_⟩
    rw [UnaryServerInterceptor_run logger o ctx req info handler w _ _ _ _ _ _ _ _ _ _ _ h hh
      hc hl hk]
    rfl
  · obtain ⟨newCtx, w1, err, w2, code, w3, level, w4, ws, o5, h, hh, hc, hl, hk⟩ :=
      stream_steps logger o srv stream sinfo.FullMethod shandler w
    refine ⟨newCtx, w1, err, w2, code, w3, level, w4, h, hh, hc, hl, ?_⟩
    rw [StreamServerInterceptor_run logger o srv stream sinfo shandler w _ _ _ _ _ _ _ _ _ _ h
      hh hc hl hk]
    rfl

/-- C1, counterexample: with a policy whose level is the fatal level, the unary
interceptor does not return the pair of the handler; the process exits in `Write`. -/
theorem fatal_level_does_not_return :
    (echoHandler (.WithValue (.root 0) .ctxMarkerKey (.holder 0)) (.int 7) exampleWorld).1 =
      (.int 7, none) ∧
    (UnaryServerInterceptor infoLogger fatalPolicy (.root 0) (.int 7) exampleInfo
      echoHandler exampleWorld).1 = .error .zapFatal ∧
    (UnaryServerInterceptor infoLogger fatalPolicy (.root 0) (.int 7) exampleInfo
      echoHandler exampleWorld).1 ≠ .ok (.int 7, none) := by
  decide

/-- C3, as amended. Completion record: for every base logger, policy and handler that
returns, one call through the unary interceptor, and likewise through the streaming
interceptor, makes after the handler and the policy functions have run one `Check` on
the logger then held for the call, and every core that this `Check` adds to the checked
entry writes the entry exactly once; nothing else changes. If the core of that logger is
the core of `zapcore.NewCore`, exactly one record is appended when the core enables the
computed level and none otherwise; if it is the no-op core, none is. -/
theorem completion_record_when_enabled (logger : Logger) (o : options) (ctx : Context)
    (req srv : Any) (info : grpc.UnaryServerInfo) (handler : grpc.UnaryHandler)
    (stream : grpc.ServerStream) (sinfo : grpc.StreamServerInfo)
    (shandler : grpc.StreamHandler) (w : World) :
    (∃ newCtx w1 resp err w2 code w3 level w4 ws o5,
      newLoggerForCall ctx logger info.FullMethod w = (.ok newCtx, w1) ∧
      handler newCtx req w1 = ((resp, err), w2) ∧
      o.codeFunc err w2 = (code, w3) ∧ o.levelFunc code w3 = (level, w4) ∧
      accepted (Extract newCtx w4) { Level := level, Message := unaryMsg } w4.toOutput =
        (ws, o5) ∧
      (UnaryServerInterceptor logger o ctx req info handler w).2 =
        w4.withOutput (writeAll ws { Level := level, Message := unaryMsg }
          (completionFields err code (timeDiffToMilliseconds w1.now (w4.withOutput o5))) o5) ∧
      (∀ enab enc, (Extract newCtx w4).core = ioCore enab enc →
        ∃ recs, (UnaryServerInterceptor logger o ctx req info handler w).2.journal =
            w4.journal ++ recs ∧
          recs.length = (if enab level then 1 else 0)) ∧
      ((Extract newCtx w4).core = nopCore →
        (UnaryServerInterceptor logger o ctx req info handler w).2.journal = w4.journal)) ∧
    (∃ newCtx w1 err w2 code w3 level w4 ws o5,
      newLoggerForCall stream.Context logger sinfo.FullMethod w = (.ok newCtx, w1) ∧
      shandler srv (wrappedFor stream newCtx) w1 = (err, w2) ∧
      o.codeFunc err w2 = (code, w3) ∧ o.levelFunc code w3 = (level, w4) ∧
      accepted (Extract newCtx w4) { Level := level, Message := streamMsg } w4.toOutput =
        (ws, o5) ∧
      (StreamServerInterceptor logger o srv stream sinfo shandler w).2 =
        w4.withOutput (writeAll ws { Level := level, Message := streamMsg }
          (completionFields err code (timeDiffToMilliseconds w1.now (w4.withOutput o5))) o5) ∧
      (∀ enab enc, (Extract newCtx w4).core = ioCore enab enc →
        ∃ recs, (StreamServerInterceptor logger o srv stream sinfo shandler w).2.journal =
            w4.journal ++ recs ∧
          recs.length = (if enab level then 1 else 0)) ∧
      ((Extract newCtx w4).core = nopCore →
        (StreamServerInterceptor logger o srv stream sinfo shandler w).2.journal =
          w4.journal)) := by
  constructor
  · obtain ⟨newCtx, w1, resp, err, w2, code, w3, level, w4, ws, o5, h, hh, hc, hl, hk⟩ :=
      unary_steps logger o ctx req info.FullMethod handler w
    have hrun := UnaryServerInterceptor_run logger o ctx req info handler w _ _ _ _ _ _ _ _ _
      _ _ h hh hc hl hk
    refine ⟨newCtx, w1, resp, err, w2, code, w3, level, w4, ws, o5, h, hh, hc, hl, hk, ?_,
      ?_, ?_⟩
    · rw [hrun]
    · intro enab enc hcore
      rw [accepted_ioCore _ enab enc hcore] at hk
      injection hk with hk1 hk2
      subst hk1 hk2
      rw [hrun]
      simp only [withOutput_writeAll_ioCore]
      refine ⟨_, rfl, ?_⟩
      cases enab level <;> rfl
    · intro hcore
      rw [accepted_nopCore _ hcore] at hk
      injection hk with hk1 hk2
      subst hk1 hk2
      rw [hrun]
      rfl
  · obtain ⟨newCtx, w1, err, w2, code, w3, level, w4, ws, o5, h, hh, hc, hl, hk⟩ :=
      stream_steps logger o srv stream sinfo.FullMethod shandler w
    have hrun := StreamServerInterceptor_run logger o srv stream sinfo shandler w _ _ _ _ _ _
      _ _ _ _ h hh hc hl hk
    refine ⟨newCtx, w1, err, w2, code, w3, level, w4, ws, o5, h, hh, hc, hl, hk, ?_, ?_, ?_⟩
    · rw [hrun]
    · intro enab enc hcore
      rw [accepted_ioCore _ enab enc hcore] at hk
      injection hk with hk1 hk2
      subst hk1 hk2
      rw [hrun]
      simp only [withOutput_writeAll_ioCore]
      refine ⟨_, rfl, ?_⟩
      cases enab level <;> rfl
    · intro hcore
      rw [accepted_nopCore _ hcore] at hk
      injection hk with hk1 hk2
      subst hk1 hk2
      rw [hrun]
      rfl

/-- C3, witness: on the info-level logger over the core of `zapcore.NewCore`, a call
whose level is the info level appends exactly one record. -/
theorem completion_record_when_enabled_witness :
    ∃ recs, (UnaryServerInterceptor infoLogger examplePolicy (.root 0) (.int 7) exampleInfo
        echoHandler exampleWorld).2.journal = recs ∧ recs.length = 1 := by
  obtain ⟨⟨newCtx, w1, resp, err, w2, code, w3, level, w4, ws, o5, h, hh, hc, hl, _, _, hio, _⟩,
    _⟩ := completion_record_when_enabled infoLogger examplePolicy (.root 0) (.int 7) .nil
      exampleInfo echoHandler exampleStream exampleStreamInfo echoStreamHandler exampleWorld
  obtain ⟨_, _, _, hlevel, hcore, hj, _⟩ :=
    echo_steps_pinned newCtx w1 resp err w2 code w3 level w4 h hh hc hl
  obtain ⟨recs, hr1, hr2⟩ := hio _ _ hcore
  refine ⟨recs, ?_, ?_⟩
  · rw [hr1, hj]
    rfl
  · rw [hr2, hlevel]
    rfl

/-- C3, counterexample: on a logger that enables the error level and above, a call whose
level is the info level returns normally and emits no record, through either
interceptor; on a logger over a tee of two cores the same call emits two records. -/
theorem disabled_level_emits_nothing :
    (UnaryServerInterceptor errorLogger examplePolicy (.root 0) (.int 7) exampleInfo
      echoHandler exampleWorld).1 = .ok (.int 7, none) ∧
    (UnaryServerInterceptor errorLogger examplePolicy (.root 0) (.int 7) exampleInfo
      echoHandler exampleWorld).2.journal = [] ∧
    (StreamServerInterceptor errorLogger examplePolicy .nil exampleStream exampleStreamInfo
      echoStreamHandler exampleWorld).2.journal = [] ∧
    (UnaryServerInterceptor teeLogger examplePolicy (.root 0) (.int 7) exampleInfo
      echoHandler exampleWorld).2.journal.length = 2 := by
  decide

/-- C4. Policy injection: in the unary interceptor `codeFunc` is applied once to the
handler's error and `levelFunc` once to the resulting code; the completion record is
checked at the resulting level on the logger extracted afterwards, and every core that
the `Check` adds writes the entry with this level, the message and exactly the fields
error, `grpc.code` (the string form of the code) and `grpc.time_ms`, in this order. On
the core of `zapcore.NewCore` this is one record with these fields if the core enables
the level, and nothing otherwise; on the no-op core nothing. -/
theorem policy_injection (logger : Logger) (o : options) (ctx : Context) (req : Any)
    (info : grpc.UnaryServerInfo) (handler : grpc.UnaryHandler) (w : World) :
    ∃ newCtx w1 resp err w2 code w3 level w4 ws o5,
      newLoggerForCall ctx logger info.FullMethod w = (.ok newCtx, w1) ∧
      handler newCtx req w1 = ((resp, err), w2) ∧
      o.codeFunc err w2 = (code, w3) ∧ o.levelFunc code w3 = (level, w4) ∧
      accepted (Extract newCtx w4)
        { Level := level, Message := ascii "finished unary call" } w4.toOutput = (ws, o5) ∧
      (UnaryServerInterceptor logger o ctx req info handler w).2 =
        w4.withOutput (writeAll ws { Level := level, Message := ascii "finished unary call" }
          [zap.Error err,
           zap.String (ascii "grpc.code") (codes.String code),
           zap.Float32 (ascii "grpc.time_ms")
             (timeDiffToMilliseconds w1.now (w4.withOutput o5))] o5) ∧
      (UnaryServerInterceptor logger o ctx req info handler w).1 =
        afterWrite (Extract newCtx w4) level unaryMsg (resp, err) ∧
      (∀ enab enc, (Extract newCtx w4).core = ioCore enab enc →
        (UnaryServerInterceptor logger o ctx req info handler w).2 =
          { w4 with
            journal := w4.journal ++
              if enab level then
                [{ Level := level, Message := ascii "finished unary call",
                   Context := enc,
                   Fields := [zap.Error err,
                     zap.String (ascii "grpc.code") (codes.String code),
                     zap.Float32 (ascii "grpc.time_ms") (timeDiffToMilliseconds w1.now w4)] }]
              else [] }) ∧
      ((Extract newCtx w4).core = nopCore →
        (UnaryServerInterceptor logger o ctx req info handler w).2 = w4) := by
  obtain ⟨newCtx, w1, resp, err, w2, code, w3, level, w4, ws, o5, h, hh, hc, hl, hk⟩ :=
    unary_steps logger o ctx req info.FullMethod handler w
  have hrun := UnaryServerInterceptor_run logger o ctx req info handler w _ _ _ _ _ _ _ _ _
    _ _ h hh hc hl hk
  refine ⟨newCtx, w1, resp, err, w2, code, w3, level, w4, ws, o5, h, hh, hc, hl, hk, ?_, ?_,
    ?_, ?_⟩
  · rw [hrun]
    rfl
  · rw [hrun]
  · intro enab enc hcore
    rw [accepted_ioCore _ enab enc hcore] at hk
    injection hk with hk1 hk2
    subst hk1 hk2
    rw [hrun]
    simp only [withOutput_writeAll_ioCore, World.withOutput_toOutput]
    rfl
  · intro hcore
    rw [accepted_nopCore _ hcore] at hk
    injection hk with hk1 hk2
    subst hk1 hk2
    rw [hrun]
    rfl

/-- C4, witness: for `echoHandler` with `examplePolicy` on the info-level logger the
record has the info level, the code `OK`, no error field and one millisecond. -/
theorem policy_injection_witness :
    (UnaryServerInterceptor infoLogger examplePolicy (.root 0) (.int 7) exampleInfo
        echoHandler exampleWorld).2.journal =
      [{ Level := InfoLevel, Message := ascii "finished unary call",
         Context := [defaultSystemField, zap.String (ascii "grpc.service") (ascii "pkg.Service"),
           zap.String (ascii "grpc.method") (ascii "Method")],
         Fields := [.skip, zap.String (ascii "grpc.code") (ascii "OK"),
           zap.Float32 (ascii "grpc.time_ms") 1] }] := by
  obtain ⟨newCtx, w1, resp, err, w2, code, w3, level, w4, ws, o5, h, hh, hc, hl, _, _, _, hio,
    _⟩ := policy_injection infoLogger examplePolicy (.root 0) (.int 7) exampleInfo echoHandler
      exampleWorld
  obtain ⟨_, herr, hcode, hlevel, hcore, hj, ht⟩ :=
    echo_steps_pinned newCtx w1 resp err w2 code w3 level w4 h hh hc hl
  rw [hio _ _ hcore]
  subst herr hcode hlevel
  simp only [hj, ht]
  decide

/-- C7. Streaming context override: the stream passed to the handler reports through
its context accessor the context `newCtx` that `newLoggerForCall` built from the
context of the original stream, in which `Extract` finds the call-scoped logger; every
other operation is that of the original stream. The streaming interceptor applies its
handler to the unchanged `srv` and this stream: the error it returns and the state it
leaves are those computed from the result of the handler on these arguments. -/
theorem stream_context_override (logger : Logger) (o : options) (srv : Any)
    (stream : grpc.ServerStream) (sinfo : grpc.StreamServerInfo) (w : World) :
    ∃ service method newCtx w1,
      newLoggerForCall stream.Context logger sinfo.FullMethod w = (.ok newCtx, w1) ∧
      newCtx = .WithValue stream.Context .ctxMarkerKey (.holder w.holders.length) ∧
      (wrappedFor stream newCtx).Context = newCtx ∧
      Extract (wrappedFor stream newCtx).Context w1 = logger.With [w.SystemField,
        zap.String (ascii "grpc.service") service, zap.String (ascii "grpc.method") method] ∧
      (wrappedFor stream newCtx).SetHeader = stream.SetHeader ∧
      (wrappedFor stream newCtx).SendHeader = stream.SendHeader ∧
      (wrappedFor stream newCtx).SetTrailer = stream.SetTrailer ∧
      (wrappedFor stream newCtx).SendMsg = stream.SendMsg ∧
      (wrappedFor stream newCtx).RecvMsg = stream.RecvMsg ∧
      (∀ handler : grpc.StreamHandler,
        ∃ err w2 code w3 level w4 ws o5,
          handler srv (wrappedFor stream newCtx) w1 = (err, w2) ∧
          o.codeFunc err w2 = (code, w3) ∧ o.levelFunc code w3 = (level, w4) ∧
          accepted (Extract newCtx w4) { Level := level, Message := streamMsg } w4.toOutput =
            (ws, o5) ∧
          StreamServerInterceptor logger o srv stream sinfo handler w =
            (afterWrite (Extract newCtx w4) level streamMsg err,
             w4.withOutput (writeAll ws { Level := level, Message := streamMsg }
               (completionFields err code (timeDiffToMilliseconds w1.now (w4.withOutput o5)))
               o5))) := by
  obtain ⟨dir, service, method, _, _, _, _, h5⟩ :=
    newLoggerForCall_ok stream.Context logger sinfo.FullMethod w
  have hE := Extract_toContext stream.Context (logger.With [w.SystemField,
    zap.String (ascii "grpc.service") service, zap.String (ascii "grpc.method") method]) w
  refine ⟨service, method,
    (toContext stream.Context (logger.With [w.SystemField,
      zap.String (ascii "grpc.service") service, zap.String (ascii "grpc.method") method]) w).1,
    (toContext stream.Context (logger.With [w.SystemField,
      zap.String (ascii "grpc.service") service, zap.String (ascii "grpc.method") method]) w).2,
    h5, rfl, rfl, hE, rfl, rfl, rfl, rfl, rfl, ?_⟩
  intro handler
  rcases hh : handler srv (wrappedFor stream _) _ with ⟨err, w2⟩
  rcases hc : o.codeFunc err w2 with ⟨code, w3⟩
  rcases hl : o.levelFunc code w3 with ⟨level, w4⟩
  rcases hk : accepted (Extract _ w4) { Level := level, Message := streamMsg } w4.toOutput
    with ⟨ws, o5⟩
  exact ⟨err, w2, code, w3, level, w4, ws, o5, rfl, hc, hl, hk,
    StreamServerInterceptor_run logger o srv stream sinfo handler w _ _ _ _ _ _ _ _ _ _ h5
      hh hc hl hk⟩

/-- C8, the code at a failing input: for an elapsed time of 1999999 ns the value
computed for `grpc.time_ms` is 1, which differs from 1.999999 ms by more than 0.001. -/
theorem timeDiff_whole_milliseconds :
    timeDiffToMilliseconds 0 { exampleWorld with now := 1999999 } = 1 ∧
    ¬ (|((1 : ℚ)) - 1999999 / 1000000| < 1 / 1000) := by
  constructor
  · decide
  · rw [abs_lt]
    norm_num

/-- C5. Enrichment visibility: in both interceptors the completion record is written on
the logger that `Extract(newCtx)` yields after the handler has returned. Hence if the
handler has replaced the logger held for `newCtx` by the derived logger
`L.With(extra)`, and the policy functions leave the holders alone, the record written
at an enabled level carries the fields of the derived logger: those of `L` followed by
`extra`. -/
theorem enrichment_visible (logger : Logger) (o : options) (ctx : Context) (req srv : Any)
    (info : grpc.UnaryServerInfo) (handler : grpc.UnaryHandler) (stream : grpc.ServerStream)
    (sinfo : grpc.StreamServerInfo) (shandler : grpc.StreamHandler) (w : World)
    (extra : List Field)
    (newCtx : Context) (w1 : World) (resp : Any) (err serr : GoError) (w2 sw2 : World)
    (code : codes.Code) (w3 : World) (level : Level) (w4 : World)
    (scode : codes.Code) (sw3 : World) (slevel : Level) (sw4 : World)
    (enab : Level → Bool) (enc : List Field)
    (hctx : stream.Context = ctx) (hfull : sinfo.FullMethod = info.FullMethod)
    (h : newLoggerForCall ctx logger info.FullMethod w = (.ok newCtx, w1))
    (hh : handler newCtx req w1 = ((resp, err), w2))
    (hc : o.codeFunc err w2 = (code, w3)) (hl : o.levelFunc code w3 = (level, w4))
    (hs : shandler srv (wrappedFor stream newCtx) w1 = (serr, sw2))
    (hsc : o.codeFunc serr sw2 = (scode, sw3)) (hsl : o.levelFunc scode sw3 = (slevel, sw4))
    (hcore : (Extract newCtx w1).core = ioCore enab enc)
    (hrep : Extract newCtx w2 = (Extract newCtx w1).With extra)
    (hsrep : Extract newCtx sw2 = (Extract newCtx w1).With extra)
    (hkeep : w4.holders = w2.holders) (hskeep : sw4.holders = sw2.holders)
    (hen : enab level = true) (hsen : enab slevel = true) :
    (UnaryServerInterceptor logger o ctx req info handler w).2.journal =
      w4.journal ++
        [{ Level := level, Message := unaryMsg, Context := enc ++ extra,
           Fields := completionFields err code (timeDiffToMilliseconds w1.now w4) }] ∧
    (StreamServerInterceptor logger o srv stream sinfo shandler w).2.journal =
      sw4.journal ++
        [{ Level := slevel, Message := streamMsg, Context := enc ++ extra,
           Fields := completionFields serr scode (timeDiffToMilliseconds w1.now sw4) }] ∧
    ((Extract newCtx w1).With extra).core = ioCore enab (enc ++ extra) := by
  have hE : ∀ a b : World, a.holders = b.holders → Extract newCtx a = Extract newCtx b := by
    intro a b hab
    simp [Extract, hab]
  have hL := Logger_With_ioCore (Extract newCtx w1) enab enc hcore extra
  have h4 : (Extract newCtx w4).core = ioCore enab (enc ++ extra) := by
    rw [hE w4 w2 hkeep, hrep, hL]
  have hs4 : (Extract newCtx sw4).core = ioCore enab (enc ++ extra) := by
    rw [hE sw4 sw2 hskeep, hsrep, hL]
  have hk : accepted (Extract newCtx w4) { Level := level, Message := unaryMsg } w4.toOutput =
      (if enab level then [ioWrite (enc ++ extra)] else [], w4.toOutput) :=
    accepted_ioCore _ _ _ h4 _ _
  have hsk : accepted (Extract newCtx sw4) { Level := slevel, Message := streamMsg }
      sw4.toOutput = (if enab slevel then [ioWrite (enc ++ extra)] else [], sw4.toOutput) :=
    accepted_ioCore _ _ _ hs4 _ _
  refine ⟨?_, ?_, hL⟩
  · rw [UnaryServerInterceptor_run logger o ctx req info handler w _ _ _ _ _ _ _ _ _ _ _ h
      hh hc hl hk]
    simp only [withOutput_writeAll_ioCore, World.withOutput_toOutput]
    simp only [hen, if_true]
  · subst hctx
    rw [← hfull] at h
    rw [StreamServerInterceptor_run logger o srv stream sinfo shandler w _ _ _ _ _ _ _ _ _ _ h
      hs hsc hsl hsk]
    simp only [withOutput_writeAll_ioCore, World.withOutput_toOutput]
    simp only [hsen, if_true]

/-- C5, witness: handlers that add the field `request.id` to the logger held for their
context; the completion records carry it after the three call fields. -/
theorem enrichment_visible_witness :
    (UnaryServerInterceptor infoLogger examplePolicy (.root 0) (.int 7) exampleInfo
        enrichingHandler exampleWorld).2.journal =
      [{ Level := ErrorLevel, Message := ascii "finished unary call",
         Context := [defaultSystemField, zap.String (ascii "grpc.service") (ascii "pkg.Service"),
           zap.String (ascii "grpc.method") (ascii "Method"), requestIdField],
         Fields := [zap.Error (some (ascii "boom")),
           zap.String (ascii "grpc.code") (ascii "Internal"),
           zap.Float32 (ascii "grpc.time_ms") 0] }] ∧
    (StreamServerInterceptor infoLogger examplePolicy .nil exampleStream exampleStreamInfo
        enrichingStreamHandler exampleWorld).2.journal =
      [{ Level := ErrorLevel, Message := ascii "finished streaming call",
         Context := [defaultSystemField, zap.String (ascii "grpc.service") (ascii "pkg.Service"),
           zap.String (ascii "grpc.method") (ascii "Method"), requestIdField],
         Fields := [zap.Error (some (ascii "boom")),
           zap.String (ascii "grpc.code") (ascii "Internal"),
           zap.Float32 (ascii "grpc.time_ms") 0] }] := by
  have key := enrichment_visible infoLogger examplePolicy (.root 0) (.int 7) .nil exampleInfo
    enrichingHandler exampleStream exampleStreamInfo enrichingStreamHandler exampleWorld
    [requestIdField]
    (.WithValue (.root 0) .ctxMarkerKey (.holder 0))
    (newLoggerForCall (.root 0) infoLogger exampleInfo.FullMethod exampleWorld).2
    .nil (some (ascii "boom")) (some (ascii "boom"))
    (AddFields (.WithValue (.root 0) .ctxMarkerKey (.holder 0)) [requestIdField]
      (newLoggerForCall (.root 0) infoLogger exampleInfo.FullMethod exampleWorld).2)
    (AddFields (.WithValue (.root 0) .ctxMarkerKey (.holder 0)) [requestIdField]
      (newLoggerForCall (.root 0) infoLogger exampleInfo.FullMethod exampleWorld).2)
    codes.Internal
    (AddFields (.WithValue (.root 0) .ctxMarkerKey (.holder 0)) [requestIdField]
      (newLoggerForCall (.root 0) infoLogger exampleInfo.FullMethod exampleWorld).2)
    ErrorLevel
    (AddFields (.WithValue (.root 0) .ctxMarkerKey (.holder 0)) [requestIdField]
      (newLoggerForCall (.root 0) infoLogger exampleInfo.FullMethod exampleWorld).2)
    codes.Internal
    (AddFields (.WithValue (.root 0) .ctxMarkerKey (.holder 0)) [requestIdField]
      (newLoggerForCall (.root 0) infoLogger exampleInfo.FullMethod exampleWorld).2)
    ErrorLevel
    (AddFields (.WithValue (.root 0) .ctxMarkerKey (.holder 0)) [requestIdField]
      (newLoggerForCall (.root 0) infoLogger exampleInfo.FullMethod exampleWorld).2)
    (fun l => decide (InfoLevel ≤ l))
    [defaultSystemField, zap.String (ascii "grpc.service") (ascii "pkg.Service"),
      zap.String (ascii "grpc.method") (ascii "Method")]
    rfl rfl rfl rfl rfl rfl rfl rfl rfl rfl rfl rfl rfl rfl rfl rfl
  exact ⟨key.1.trans (by decide), key.2.1.trans (by decide)⟩

/-- C9, as amended. Unary and streaming equivalence: for the same base logger, options,
full method string and starting context, handlers that end with the same error and
leave the same state (the logger held for the call and the clock included), and a
logger held at completion whose core is the core of `zapcore.NewCore`, the state after
the streaming interceptor is the state after the unary interceptor except that the
message of the completion record is `finished streaming call` instead of `finished
unary call`: same level, same logger fields, same error, `grpc.code` and `grpc.time_ms`
fields. -/
theorem unary_stream_same_record (logger : Logger) (o : options) (ctx : Context) (req srv : Any)
    (info : grpc.UnaryServerInfo) (handler : grpc.UnaryHandler) (stream : grpc.ServerStream)
    (sinfo : grpc.StreamServerInfo) (shandler : grpc.StreamHandler) (w : World)
    (newCtx : Context) (w1 : World) (resp : Any) (err : GoError) (w2 : World)
    (code : codes.Code) (w3 : World) (level : Level) (w4 : World)
    (enab : Level → Bool) (enc : List Field)
    (hctx : stream.Context = ctx) (hfull : sinfo.FullMethod = info.FullMethod)
    (h : newLoggerForCall ctx logger info.FullMethod w = (.ok newCtx, w1))
    (hh : handler newCtx req w1 = ((resp, err), w2))
    (hs : shandler srv (wrappedFor stream newCtx) w1 = (err, w2))
    (hc : o.codeFunc err w2 = (code, w3)) (hl : o.levelFunc code w3 = (level, w4))
    (hcore : (Extract newCtx w4).core = ioCore enab enc) :
    (UnaryServerInterceptor logger o ctx req info handler w).2 =
      { w4 with
        journal := w4.journal ++
          if enab level then
            [{ Level := level, Message := ascii "finished unary call", Context := enc,
               Fields := [zap.Error err, zap.String (ascii "grpc.code") (codes.String code),
                 zap.Float32 (ascii "grpc.time_ms") (timeDiffToMilliseconds w1.now w4)] }]
          else [] } ∧
    (StreamServerInterceptor logger o srv stream sinfo shandler w).2 =
      { w4 with
        journal := w4.journal ++
          if enab level then
            [{ Level := level, Message := ascii "finished streaming call", Context := enc,
               Fields := [zap.Error err, zap.String (ascii "grpc.code") (codes.String code),
                 zap.Float32 (ascii "grpc.time_ms") (timeDiffToMilliseconds w1.now w4)] }]
          else [] } := by
  have hk : accepted (Extract newCtx w4) { Level := level, Message := unaryMsg } w4.toOutput =
      (if enab level then [ioWrite enc] else [], w4.toOutput) :=
    accepted_ioCore _ _ _ hcore _ _
  have hsk : accepted (Extract newCtx w4) { Level := level, Message := streamMsg }
      w4.toOutput = (if enab level then [ioWrite enc] else [], w4.toOutput) :=
    accepted_ioCore _ _ _ hcore _ _
  constructor
  · rw [UnaryServerInterceptor_run logger o ctx req info handler w _ _ _ _ _ _ _ _ _ _ _ h
      hh hc hl hk]
    simp only [withOutput_writeAll_ioCore, World.withOutput_toOutput]
    rfl
  · subst hctx
    rw [← hfull] at h
    rw [StreamServerInterceptor_run logger o srv stream sinfo shandler w _ _ _ _ _ _ _ _ _ _ h
      hs hc hl hsk]
    simp only [withOutput_writeAll_ioCore, World.withOutput_toOutput]
    rfl

/-- C9, witness: a unary and a streaming handler that both add a field to the held
logger and fail with the same error. -/
theorem unary_stream_same_record_witness :
    (UnaryServerInterceptor infoLogger examplePolicy (.root 0) (.int 7) exampleInfo
        enrichingHandler exampleWorld).2.journal =
      [{ Level := ErrorLevel, Message := ascii "finished unary call",
         Context := [defaultSystemField, zap.String (ascii "grpc.service") (ascii "pkg.Service"),
           zap.String (ascii "grpc.method") (ascii "Method"), requestIdField],
         Fields := [zap.Error (some (ascii "boom")),
           zap.String (ascii "grpc.code") (ascii "Internal"),
           zap.Float32 (ascii "grpc.time_ms") 0] }] ∧
    (StreamServerInterceptor infoLogger examplePolicy .nil exampleStream exampleStreamInfo
        enrichingStreamHandler exampleWorld).2.holders =
      (UnaryServerInterceptor infoLogger examplePolicy (.root 0) (.int 7) exampleInfo
        enrichingHandler exampleWorld).2.holders ∧
    (StreamServerInterceptor infoLogger examplePolicy .nil exampleStream exampleStreamInfo
        enrichingStreamHandler exampleWorld).2.journal =
      (UnaryServerInterceptor infoLogger examplePolicy (.root 0) (.int 7) exampleInfo
        enrichingHandler exampleWorld).2.journal.map
          (fun r => { r with Message := ascii "finished streaming call" }) := by
  have key := unary_stream_same_record infoLogger examplePolicy (.root 0) (.int 7) .nil
    exampleInfo enrichingHandler exampleStream exampleStreamInfo enrichingStreamHandler
    exampleWorld
    (.WithValue (.root 0) .ctxMarkerKey (.holder 0))
    (newLoggerForCall (.root 0) infoLogger exampleInfo.FullMethod exampleWorld).2
    .nil (some (ascii "boom"))
    (AddFields (.WithValue (.root 0) .ctxMarkerKey (.holder 0)) [requestIdField]
      (newLoggerForCall (.root 0) infoLogger exampleInfo.FullMethod exampleWorld).2)
    codes.Internal
    (AddFields (.WithValue (.root 0) .ctxMarkerKey (.holder 0)) [requestIdField]
      (newLoggerForCall (.root 0) infoLogger exampleInfo.FullMethod exampleWorld).2)
    ErrorLevel
    (AddFields (.WithValue (.root 0) .ctxMarkerKey (.holder 0)) [requestIdField]
      (newLoggerForCall (.root 0) infoLogger exampleInfo.FullMethod exampleWorld).2)
    (fun l => decide (InfoLevel ≤ l))
    [defaultSystemField, zap.String (ascii "grpc.service") (ascii "pkg.Service"),
      zap.String (ascii "grpc.method") (ascii "Method"), requestIdField]
    rfl rfl rfl rfl rfl rfl rfl rfl
  refine ⟨?_, ?_, ?_⟩
  · rw [key.1]
    decide
  · rw [key.1, key.2]
  · rw [key.1, key.2]
    decide

/-- C9, counterexample: with the same logger, options, method, starting context, elapsed
time and error, a unary handler that adds a field to the held logger and a streaming
handler that adds none give completion records that differ in more than the message;
and on a core that drops entries by their message, handlers with the same effect give
a unary record and no streaming record. -/
theorem unary_stream_records_differ :
    (UnaryServerInterceptor infoLogger examplePolicy (.root 0) (.int 7) exampleInfo
        enrichingHandler exampleWorld).1 = .ok (.nil, some (ascii "boom")) ∧
    (StreamServerInterceptor infoLogger examplePolicy .nil exampleStream exampleStreamInfo
        failingStreamHandler exampleWorld).1 = .ok (some (ascii "boom")) ∧
    (StreamServerInterceptor infoLogger examplePolicy .nil exampleStream exampleStreamInfo
        failingStreamHandler exampleWorld).2.now =
      (UnaryServerInterceptor infoLogger examplePolicy (.root 0) (.int 7) exampleInfo
        enrichingHandler exampleWorld).2.now ∧
    (StreamServerInterceptor infoLogger examplePolicy .nil exampleStream exampleStreamInfo
        failingStreamHandler exampleWorld).2.journal ≠
      (UnaryServerInterceptor infoLogger examplePolicy (.root 0) (.int 7) exampleInfo
        enrichingHandler exampleWorld).2.journal.map
          (fun r => { r with Message := ascii "finished streaming call" }) ∧
    (UnaryServerInterceptor droppingLogger examplePolicy (.root 0) (.int 7) exampleInfo
        echoHandler exampleWorld).2.journal.length = 1 ∧
    (StreamServerInterceptor droppingLogger examplePolicy .nil exampleStream exampleStreamInfo
        echoStreamHandler exampleWorld).2.journal.length = 0 := by
  decide

end GrpcZap
